import Mathlib

/-!
# grip: reader, matcher, glob filter and indexer front end

A shallow embedding of `general/dbreader.cpp`, `pattern.cpp`, `grip/glob.cpp`
and `gripgen/gripgen.cpp`, followed by theorems about them.

Conventions: C strings are `List Char` (the terminating NUL is the end of the
list); `size_t` values are `Nat` reduced modulo `SIZE_MOD` after every
addition and subtraction; a C++ object that is mutated is passed in and
returned; the data a function reads or the calls it makes are recorded in a
ghost log carried by the state.
-/

namespace Grip

/-! ## general/dbreader.cpp -/

/-- Number of values of a `size_t` (64-bit target). -/
def SIZE_MOD : Nat := 18446744073709551616

/-- Modelled from the spec: the record `Index` of `index.h` (not among the
sources), `{trigram, offset, size, lastId}`. -/
structure Index where
  trigram : Nat
  offset : Nat
  size : Nat
  lastId : Nat
deriving DecidableEq, Repr

/-- Modelled from the spec: the posting list `CompressedIds` of
`compressedids.h` (not among the sources), a byte buffer together with the
stored `lastId`. -/
structure CompressedIds where
  data : List Nat
  lastId : Nat
deriving DecidableEq, Repr

/-- The default-constructed list: no bytes, `lastId` zero. -/
def CompressedIds.empty : CompressedIds := ⟨[], 0⟩

/-- The cache `m_chunks`, a `std::map<uint32_t, CompressedIds>`, as an
association list with at most one pair per key. -/
abbrev Chunks := List (Nat × CompressedIds)

/-- Lookup `m_chunks.find(trigram)`. -/
def Chunks.find (m : Chunks) (trigram : Nat) : Option CompressedIds :=
  m.lookup trigram

/-- Assignment through the reference returned by `m_chunks[trigram]`. -/
def Chunks.set (m : Chunks) (trigram : Nat) (ids : CompressedIds) : Chunks :=
  (trigram, ids) :: m.filter (fun p => p.1 != trigram)

/-- The reader. `m_dataFile offset size` is the byte sequence that
`seek(offset)` followed by `read(data, size)` delivers (`file.h` is not among
the sources); `reads` is a ghost log of the `(offset, size)` of every read of
the data file, oldest first. -/
structure DbReader where
  m_dataFile : Nat → Nat → List Nat
  m_indexes : List Index
  m_chunks : Chunks
  reads : List (Nat × Nat)

/-- A reader right after construction: empty cache, nothing read yet. -/
def DbReader.opened (dataFile : Nat → Nat → List Nat) (indexes : List Index) : DbReader :=
  ⟨dataFile, indexes, [], []⟩

/-- How the `while (low <= high)` loop of `DbReader::get` ends. `badRead` is a
read of `data[mid]` with `mid` outside the vector. -/
inductive Found where
  | hit (mid : Nat)
  | miss
  | badRead (mid : Nat)
deriving DecidableEq, Repr

/-- One iteration of the loop as seen from outside: the values of `low`, `high`
and `mid` in it. -/
structure Probe where
  low : Nat
  high : Nat
  mid : Nat
deriving DecidableEq, Repr

/-- The loop of `DbReader::get` (dbreader.cpp lines 51-72), run for at most
`fuel` iterations from `low` and `high`; `none` when the fuel is used up. The second
component lists the iterations that were executed. -/
def searchLoop (data : List Index) (trigram : Nat) :
    Nat → Nat → Nat → Option (Found × List Probe)
  | 0, _, _ => none
  | fuel + 1, low, high =>
    if low ≤ high then
      let mid := (low + high) % SIZE_MOD / 2
      match data[mid]? with
      | none => some (Found.badRead mid, [⟨low, high, mid⟩])
      | some e =>
        let val := e.trigram
        if trigram < val then
          if mid = 0 then
            some (Found.miss, [⟨low, high, mid⟩])
          else
            (searchLoop data trigram fuel low ((mid + SIZE_MOD - 1) % SIZE_MOD)).map
              (fun r => (r.1, ⟨low, high, mid⟩ :: r.2))
        else if trigram > val then
          (searchLoop data trigram fuel ((mid + 1) % SIZE_MOD) high).map
            (fun r => (r.1, ⟨low, high, mid⟩ :: r.2))
        else
          some (Found.hit mid, [⟨low, high, mid⟩])
    else
      some (Found.miss, [])

/-- The search of `DbReader::get` from its initial bounds (lines 47-48),
for a non-empty vector: `low = 0`, `high = size() - 1`. -/
def search (data : List Index) (trigram : Nat) (fuel : Nat) : Option (Found × List Probe) :=
  searchLoop data trigram fuel 0 ((data.length + SIZE_MOD - 1) % SIZE_MOD)

/-- What a call of `DbReader::get` produces. -/
inductive GetResult where
  | ok (ids : CompressedIds)
  | corruptList
  | badRead
  | noFuel
deriving DecidableEq, Repr

/-- The list `readChunks` builds for an index entry: `setData(size, lastId)`
filled with the `size` bytes at `offset`. -/
def chunkOf (dataFile : Nat → Nat → List Nat) (index : Index) : CompressedIds :=
  ⟨dataFile index.offset index.size, index.lastId⟩

/-- `DbReader::readChunks` (lines 87-94) on the cache entry of `trigram`: the entry is
overwritten in place, then validated. The boolean is the outcome of
`ids.validate()`, which throws when it is `false`. -/
def readChunks (validate : CompressedIds → Bool) (db : DbReader) (index : Index)
    (trigram : Nat) : Bool × DbReader :=
  let ids := chunkOf db.m_dataFile index
  (validate ids,
    { db with m_chunks := db.m_chunks.set trigram ids,
              reads := db.reads ++ [(index.offset, index.size)] })

/-- `DbReader::get` (lines 37-75). The loop is given `fuel` iterations. -/
def getWith (validate : CompressedIds → Bool) (fuel : Nat) (db : DbReader) (trigram : Nat) :
    GetResult × DbReader :=
  match db.m_chunks.find trigram with
  | some ids => (GetResult.ok ids, db)
  | none =>
    let db1 := { db with m_chunks := db.m_chunks.set trigram CompressedIds.empty }
    if db.m_indexes.isEmpty then
      (GetResult.ok CompressedIds.empty, db1)
    else
      match search db.m_indexes trigram fuel with
      | none => (GetResult.noFuel, db1)
      | some (Found.badRead _, _) => (GetResult.badRead, db1)
      | some (Found.miss, _) => (GetResult.ok CompressedIds.empty, db1)
      | some (Found.hit mid, _) =>
        match db.m_indexes[mid]? with
        | none => (GetResult.badRead, db1)
        | some index =>
          match readChunks validate db1 index trigram with
          | (true, db2) => (GetResult.ok (chunkOf db.m_dataFile index), db2)
          | (false, db2) => (GetResult.corruptList, db2)

/-- `DbReader::get` with one iteration of fuel per index entry and one more. -/
def get (validate : CompressedIds → Bool) (db : DbReader) (trigram : Nat) :
    GetResult × DbReader :=
  getWith validate (db.m_indexes.length + 1) db trigram

/-- `DbReader::clearCache` (lines 82-85). -/
def clearCache (db : DbReader) : DbReader :=
  { db with m_chunks := [] }

/-- Modelled from the spec: the decoder behind `CompressedIds::validate`
(`compressedids.h` is not among the sources). Bytes are base-128 varints, low
group first, the high bit of a byte meaning that the varint continues; the
decoded deltas are summed from zero. The result is `none` when the buffer ends
inside a varint, else the last id. `value` and `shift` are the varint read so
far, `inside` tells whether one is open, `id` is the running sum. -/
def decodeLastId : List Nat → Nat → Nat → Bool → Nat → Option Nat
  | [], _, _, inside, id => if inside then none else some id
  | b :: rest, value, shift, _, id =>
    if b ≥ 128 then decodeLastId rest (value + (b % 128) * 2 ^ shift) (shift + 7) true id
    else decodeLastId rest 0 0 false (id + (value + (b % 128) * 2 ^ shift))

/-- Modelled from the spec: `CompressedIds::validate` (`compressedids.h` is not
among the sources): every byte is consumed at the end of a varint and the
reconstructed last id equals the stored `lastId`; `false` is the failure
`CorruptList`. -/
def CompressedIds.validate (ids : CompressedIds) : Bool :=
  decodeLastId ids.data 0 0 false 0 == some ids.lastId

/-- A data file given by its bytes: `seek(offset)` and a read of `size` bytes. -/
def fileOfBytes (bytes : List Nat) (offset size : Nat) : List Nat :=
  (bytes.drop offset).take size

/-- A call on the reader: `get(trigram)` or `clearCache()`. -/
inductive Op where
  | get (trigram : Nat)
  | clearCache
deriving DecidableEq, Repr

/-- The reader after one call. -/
def Op.apply (validate : CompressedIds → Bool) (db : DbReader) : Op → DbReader
  | Op.get trigram => (Grip.get validate db trigram).2
  | Op.clearCache => Grip.clearCache db

/-- The reader after a sequence of calls, first call first. -/
def runOps (validate : CompressedIds → Bool) (db : DbReader) (ops : List Op) : DbReader :=
  ops.foldl (Op.apply validate) db

/-- The index vector is sorted strictly ascending by trigram. -/
abbrev SortedByTrigram (data : List Index) : Prop :=
  data.Pairwise (fun a b => a.trigram < b.trigram)

/-! ## pattern.cpp -/

/-- Modelled from the spec: the macro `TO_LOWER` of `case.h` (not among the
sources), byte-wise ASCII lower-casing. -/
def TO_LOWER (c : Char) : Char :=
  if 'A' ≤ c ∧ c ≤ 'Z' then Char.ofNat (c.toNat + 32) else c

/-- The libc function `strstr`: the offset of the first occurrence of `needle`
in `haystack`, `none` for a null pointer. -/
def strstr : List Char → List Char → Option Nat
  | [], needle => if needle.isEmpty then some 0 else none
  | c :: rest, needle =>
    if needle.isPrefixOf (c :: rest) then some 0
    else (strstr rest needle).map (fun i => i + 1)

/-- The result `Pattern::Match`: `pos` is an offset into the searched string
(`none` for the null pointer of `Match()`), `len` the length of the match. -/
structure Match where
  pos : Option Int
  len : Nat
deriving DecidableEq, Repr

/-- The call `std::string::c_str()` read as a C string: the characters before the
first NUL of the string. -/
def c_str (s : List Char) : List Char :=
  s.takeWhile (fun c => c != Char.ofNat 0)

/-- `LiteralPattern::match` (pattern.cpp lines 31-40): `strstr` sees the pattern
up to its first NUL, the length reported is `m_pattern.size()`. -/
def LiteralPattern.match (m_pattern : List Char) (str : List Char) : Match :=
  let res : Match := ⟨(strstr str (c_str m_pattern)).map Int.ofNat, 0⟩
  if res.pos.isSome then { res with len := m_pattern.length } else res

/-- The constructor of `LiteralCaseInsPattern` (lines 50-55): the stored
pattern is the argument with `TO_LOWER` applied to every byte. -/
def LiteralCaseInsPattern.new (pattern : List Char) : List Char :=
  pattern.map TO_LOWER

/-- The loop of `LiteralCaseInsPattern::match` (lines 70-81) over the rest of
the string: `ch` is the offset of the current character, `p` the offset of the
pattern cursor; `*p` past the last character of the pattern is the NUL. -/
def LiteralCaseInsPattern.loop (m_pattern : List Char) : List Char → Nat → Nat → Match
  | [], _, _ => ⟨none, 0⟩
  | c :: rest, ch, p =>
    if TO_LOWER c = m_pattern.getD p (Char.ofNat 0) then
      if m_pattern.getD (p + 1) (Char.ofNat 0) = Char.ofNat 0 then
        ⟨some ((ch : Int) - (m_pattern.length : Int) + 1), m_pattern.length⟩
      else
        LiteralCaseInsPattern.loop m_pattern rest (ch + 1) (p + 1)
    else
      LiteralCaseInsPattern.loop m_pattern rest (ch + 1) 0

/-- `LiteralCaseInsPattern::match` (lines 65-84) for the object built from
`pattern`. -/
def LiteralCaseInsPattern.match (pattern : List Char) (str : List Char) : Match :=
  LiteralCaseInsPattern.loop (LiteralCaseInsPattern.new pattern) str 0 0

/-! ## grip/glob.cpp -/

/-- The call `std::string::rfind(char)`: offset of the last occurrence, `none` for `npos`. -/
def rfind : List Char → Char → Option Nat
  | [], _ => none
  | x :: rest, c =>
    match rfind rest c with
    | some i => some (i + 1)
    | none => if x = c then some 0 else none

/-- The file name `Glob::compare` looks at (glob.cpp lines 53-54). -/
def Glob.fname (PATH_DELIMITER : Char) (str : List Char) : List Char :=
  match rfind str PATH_DELIMITER with
  | none => str.drop 0
  | some pos => str.drop (pos + 1)

/-- What can be thrown: an `Error` (the class of `error.h`) or another
`std::exception`. -/
inductive Exn where
  | error
  | stdException
deriving DecidableEq, Repr

/-- One call of `files.readLine(false)` in the producer: it returns a line or
throws an `Error`. After the last element of the input the call returns `NULL`. -/
inductive ReadLine where
  | line (fname : List Char)
  | throws
deriving DecidableEq, Repr

/-- The libc call `strncmp(a, b, n) == 0`: the first `n` characters agree. -/
def strncmpEq (a b : List Char) (n : Nat) : Bool :=
  decide (a.take n = b.take n)

/-- What the producer thread has done: the paths given to `filesQueue.put`,
oldest first; the value it stored to the global `result`, if it stored one;
the lines given to `printFileError`. -/
structure Producer where
  queue : List (List Char)
  result : Option Int
  fileErrors : List (List Char)
deriving DecidableEq, Repr

/-- The `while` loop of `fileListProducer` (gripgen.cpp lines 260-277).
`running i` is the value of `fileListProducerRunning` read by test number `i`;
`canonizePath` (`dir.h`, not among the sources) returns `none` when it throws an
`Error`. The boolean result tells whether `readLine` threw. -/
def producerLoop (GRIP_DIR PATH_DELIMITER_S : List Char)
    (canonizePath : List Char → Option (List Char)) (running : Nat → Bool) :
    List ReadLine → Nat → Producer → Producer × Bool
  | [], _, p => (p, false)
  | r :: rest, i, p =>
    if running i then
      match r with
      | ReadLine.throws => (p, true)
      | ReadLine.line fname =>
        if strncmpEq fname GRIP_DIR GRIP_DIR.length then
          producerLoop GRIP_DIR PATH_DELIMITER_S canonizePath running rest (i + 1) p
        else if (strstr fname (PATH_DELIMITER_S ++ GRIP_DIR ++ PATH_DELIMITER_S)).isSome then
          producerLoop GRIP_DIR PATH_DELIMITER_S canonizePath running rest (i + 1) p
        else
          match canonizePath fname with
          | some fileName =>
            producerLoop GRIP_DIR PATH_DELIMITER_S canonizePath running rest (i + 1)
              { p with queue := p.queue ++ [fileName] }
          | none =>
            producerLoop GRIP_DIR PATH_DELIMITER_S canonizePath running rest (i + 1)
              { p with fileErrors := p.fileErrors ++ [fname] }
    else
      (p, false)

/-- `fileListProducer` (lines 253-286): the loop, and `result = 2` in the handler
of an `Error` that left the loop. -/
def fileListProducer (GRIP_DIR PATH_DELIMITER_S : List Char)
    (canonizePath : List Char → Option (List Char)) (running : Nat → Bool)
    (files : List ReadLine) : Producer :=
  match producerLoop GRIP_DIR PATH_DELIMITER_S canonizePath running files 0 ⟨[], none, []⟩ with
  | (p, true) => { p with result := some 2 }
  | (p, false) => p

/-- The operations of the class `Indexer` (`indexer.h`, not among the sources)
that `main` calls, over an indexer state `σ`: each returns the exception it
throws, if any, and the state it leaves. -/
structure Indexer (σ : Type) where
  openDb : σ → Option Exn × σ
  indexFile : σ → List Char → Option Exn × σ
  size : σ → Nat
  write : σ → Option Exn × σ
  sortDatabase : σ → Option Exn × σ

/-- A call made by the consumer, for the ghost log. -/
inductive Call where
  | indexFile (fileName : List Char)
  | write
  | printFileError (fileName : List Char)
  | filesClose
  | sortDatabase
deriving DecidableEq, Repr

/-- The state of the consumer: the indexer, `chunksNo`, and the ghost log of
calls, oldest first. -/
structure Consumer (σ : Type) where
  indexer : σ
  chunksNo : Nat
  calls : List Call

/-- The `try` block inside the consumer loop (lines 165-184) for one file name. -/
def loopBody {σ : Type} (ix : Indexer σ) (chunkSize : Nat) (c : Consumer σ)
    (fileName : List Char) : Option Exn × Consumer σ :=
  match ix.indexFile c.indexer fileName with
  | (some e, s1) => (some e, { c with indexer := s1, calls := c.calls ++ [Call.indexFile fileName] })
  | (none, s1) =>
    let c1 : Consumer σ := { c with indexer := s1, calls := c.calls ++ [Call.indexFile fileName] }
    if ix.size s1 ≥ chunkSize then
      match ix.write s1 with
      | (some e, s2) => (some e, { c1 with indexer := s2, calls := c1.calls ++ [Call.write] })
      | (none, s2) =>
        (none, { c1 with indexer := s2, calls := c1.calls ++ [Call.write],
                         chunksNo := c1.chunksNo + 1 })
    else
      (none, c1)

/-- The consumer loop `while (filesQueue.get(fileName))` (lines 163-189) over
the file names the queue delivers: an `Error` thrown by the body is caught and
given to `printFileError`, any other exception leaves the loop. -/
def consumerLoop {σ : Type} (ix : Indexer σ) (chunkSize : Nat) :
    List (List Char) → Consumer σ → Option Exn × Consumer σ
  | [], c => (none, c)
  | fileName :: rest, c =>
    match loopBody ix chunkSize c fileName with
    | (none, c1) => consumerLoop ix chunkSize rest c1
    | (some Exn.error, c1) =>
      consumerLoop ix chunkSize rest { c1 with calls := c1.calls ++ [Call.printFileError fileName] }
    | (some Exn.stdException, c1) => (some Exn.stdException, c1)

/-- The indexer after `indexFile` has been called once on each of the paths, in
order, each call on the state the one before left, whether it threw or not,
with a `write` after a call that succeeded and left at least `chunkSize` bytes
buffered. The consumer loop is compared with it. -/
def indexedInOrder {σ : Type} (ix : Indexer σ) (chunkSize : Nat) : List (List Char) → σ → σ
  | [], s => s
  | fileName :: rest, s =>
    if (ix.indexFile s fileName).1.isNone ∧ ix.size (ix.indexFile s fileName).2 ≥ chunkSize then
      indexedInOrder ix chunkSize rest (ix.write (ix.indexFile s fileName).2).2
    else
      indexedInOrder ix chunkSize rest (ix.indexFile s fileName).2

/-- The file names given to `indexer.indexFile`, in call order, read off the log. -/
def indexedFiles : List Call → List (List Char)
  | [] => []
  | Call.indexFile fileName :: rest => fileName :: indexedFiles rest
  | _ :: rest => indexedFiles rest

/-- An indexer for examples, its state the number of bytes buffered:
`indexFile` throws what `failing` says for the file and else buffers as many
bytes as the name is long; `write` throws `writeFails` if that is an exception
and else empties the buffer; `open` and `sortDatabase` succeed. -/
def sampleIndexer (failing : List Char → Option Exn) (writeFails : Option Exn) : Indexer Nat where
  openDb := fun s => (none, s)
  indexFile := fun s fileName =>
    match failing fileName with
    | some e => (some e, s)
    | none => (none, s + fileName.length)
  size := fun s => s
  write := fun s => (writeFails, if writeFails.isSome then s else 0)
  sortDatabase := fun s => (none, s)

/-- A value returned by `getopt_long` in the option loop (lines 83-122), with
`optarg` already converted by `atoi` or `atol` where the case does so. -/
inductive Opt where
  | s
  | u
  | v (optarg : Option Int)
  | q
  | chunkSize (optarg : Int)
  | V
  | h
  | other
deriving DecidableEq, Repr

/-- The local variables of `main` set by the options. -/
structure Settings where
  supressErrors : Bool
  updateIndex : Bool
  verbose : Int
  chunkSize : Nat
deriving DecidableEq, Repr

/-- The initial values (lines 71, 76, 77, 64). -/
def Settings.initial : Settings := ⟨false, false, 1, 64 * 1024 * 1024⟩

/-- The option loop (lines 83-122): `Sum.inl code` is a `return code` out of `main`
(`result` is still `0` there). -/
def parseOptions : List Opt → Settings → Sum Int Settings
  | [], st => Sum.inr st
  | Opt.s :: rest, st => parseOptions rest { st with supressErrors := true }
  | Opt.u :: rest, st => parseOptions rest { st with updateIndex := true }
  | Opt.v (some n) :: rest, st => parseOptions rest { st with verbose := n }
  | Opt.v none :: rest, st => parseOptions rest { st with verbose := st.verbose + 1 }
  | Opt.q :: rest, st => parseOptions rest { st with verbose := 0, supressErrors := true }
  | Opt.chunkSize n :: rest, st =>
    parseOptions rest { st with chunkSize := ((n * 1024 * 1024) % (SIZE_MOD : Int)).toNat }
  | Opt.V :: _, _ => Sum.inl 0
  | Opt.h :: _, _ => Sum.inl 0
  | Opt.other :: _, _ => Sum.inl 0

/-- Everything outside `main` that a run depends on. `opts` are the successive
results of `getopt_long`; `filesOpen` and `filesClose` are the exceptions thrown
by `files.open` and `files.close`, if any; `init` is the indexer as constructed;
`files` is what the list of file names yields line by line. The last two fields
place the producer thread relative to an exception that leaves the consumer
loop: the producer goes through `itersBeforeCatch` iterations of its loop
before the handler in `main` stores `result = 1`, and begins `itersBeforeStop`
more before it reads `fileListProducerRunning` as `false`. -/
structure Env (σ : Type) where
  opts : List Opt
  filesOpen : Option Exn
  init : σ
  files : List ReadLine
  canonizePath : List Char → Option (List Char)
  filesClose : Option Exn
  itersBeforeCatch : Nat
  itersBeforeStop : Nat

/-- An environment for examples over `sampleIndexer`: every call outside the
indexer and the line source succeeds, and `canonizePath` returns its argument. -/
def sampleEnv (opts : List Opt) (files : List ReadLine)
    (itersBeforeCatch itersBeforeStop : Nat) : Env Nat :=
  ⟨opts, none, 0, files, fun fname => some fname, none, itersBeforeCatch, itersBeforeStop⟩

/-- A finished run of `main`: the exit code, the consumer's ghost log, the
producer as it ended, whether the producer thread was started. -/
structure Run where
  exit : Int
  calls : List Call
  producer : Producer
  threadStarted : Bool
deriving DecidableEq, Repr

/-- The function `main` (lines 68-251) together with the producer thread it starts.

The global `result` is written in three places: `result = 0` before the `try`
block, `result = 1` in the two handlers of `main`, `result = 2` in the handler of
`fileListProducer`. The queue delivers the paths the producer puts, in order,
and `filesQueue.get` returns `false` only after the producer has called
`done()`, which it does after its handler. So when the consumer loop ends that
way the producer's store comes before everything `main` does next. When an
exception leaves the consumer loop the producer may still be running: it is
stopped by `fileListProducerRunning = false`, `main` waits for it in
`filesQueue.wait()`, and its store, if it makes one, falls before or after
`result = 1` as `env` says. -/
def mainRun {σ : Type} (GRIP_DIR PATH_DELIMITER_S : List Char) (ix : Indexer σ)
    (env : Env σ) : Run :=
  let idle : Producer := ⟨[], none, []⟩
  match parseOptions env.opts Settings.initial with
  | Sum.inl code => ⟨code, [], idle, false⟩
  | Sum.inr st =>
    match env.filesOpen with
    | some _ => ⟨1, [], idle, false⟩
    | none =>
      match ix.openDb env.init with
      | (some _, _) => ⟨1, [], idle, false⟩
      | (none, s0) =>
        let whole := fileListProducer GRIP_DIR PATH_DELIMITER_S env.canonizePath
          (fun _ => true) env.files
        match consumerLoop ix st.chunkSize whole.queue ⟨s0, 0, []⟩ with
        | (some _, c) =>
          let early := fileListProducer GRIP_DIR PATH_DELIMITER_S env.canonizePath
            (fun i => decide (i < env.itersBeforeCatch)) env.files
          let stopped := fileListProducer GRIP_DIR PATH_DELIMITER_S env.canonizePath
            (fun i => decide (i < env.itersBeforeCatch + env.itersBeforeStop)) env.files
          let result1 : Int := 1
          let result2 : Int := if early.result.isNone then stopped.result.getD result1 else result1
          ⟨result2, c.calls, stopped, true⟩
        | (none, c) =>
          let result0 : Int := whole.result.getD 0
          match env.filesClose with
          | some _ => ⟨1, c.calls ++ [Call.filesClose], whole, true⟩
          | none =>
            match ix.sortDatabase c.indexer with
            | (some _, _) => ⟨1, c.calls ++ [Call.filesClose, Call.sortDatabase], whole, true⟩
            | (none, _) => ⟨result0, c.calls ++ [Call.filesClose, Call.sortDatabase], whole, true⟩

/-- The exit code of `main`. -/
def main {σ : Type} (GRIP_DIR PATH_DELIMITER_S : List Char) (ix : Indexer σ)
    (env : Env σ) : Int :=
  (mainRun GRIP_DIR PATH_DELIMITER_S ix env).exit

/-! ## Theorems: the binary search of `DbReader::get` -/

theorem searchLoop_safe (data : List Index) (trigram : Nat)
    (hn : 2 * data.length ≤ SIZE_MOD) :
    ∀ (fuel low high : Nat), high < data.length → high + 1 - low < fuel →
      ∃ r, searchLoop data trigram fuel low high = some r ∧ (∀ m, r.1 ≠ Found.badRead m) ∧
        ∀ p ∈ r.2, p.low ≤ p.mid ∧ p.mid ≤ p.high ∧ p.high < data.length := by
  intro fuel
  induction fuel with
  | zero => intro low high _ h; omega
  | succ fuel ih =>
    intro low high hh hf
    rw [searchLoop]
    by_cases hle : low ≤ high
    · have hmid : (low + high) % SIZE_MOD / 2 = (low + high) / 2 := by
        unfold SIZE_MOD at *; omega
      have hlt : (low + high) / 2 < data.length := by omega
      simp only [hle, if_true, hmid, List.getElem?_eq_getElem hlt]
      by_cases h1 : trigram < (data[(low + high) / 2]).trigram
      · simp only [h1, if_true]
        by_cases h0 : (low + high) / 2 = 0
        · simp only [h0, if_true]
          refine ⟨_, rfl, by simp, ?_⟩
          intro p hp
          simp only [List.mem_singleton] at hp
          subst hp
          simp only
          omega
        · simp only [h0, if_false]
          have hm1 : ((low + high) / 2 + SIZE_MOD - 1) % SIZE_MOD = (low + high) / 2 - 1 := by
            unfold SIZE_MOD at *; omega
          rw [hm1]
          obtain ⟨r, hr, hb, hp⟩ := ih low ((low + high) / 2 - 1) (by omega) (by omega)
          refine ⟨(r.1, ⟨low, high, (low + high) / 2⟩ :: r.2), by rw [hr]; rfl, hb, ?_⟩
          intro p hp1
          simp only [List.mem_cons] at hp1
          rcases hp1 with rfl | hp1
          · simp only; omega
          · exact hp p hp1
      · simp only [h1, if_false]
        by_cases h2 : trigram > (data[(low + high) / 2]).trigram
        · simp only [h2, if_true]
          have hp1 : ((low + high) / 2 + 1) % SIZE_MOD = (low + high) / 2 + 1 := by
            unfold SIZE_MOD at *; omega
          rw [hp1]
          obtain ⟨r, hr, hb, hp⟩ := ih ((low + high) / 2 + 1) high hh (by omega)
          refine ⟨(r.1, ⟨low, high, (low + high) / 2⟩ :: r.2), by rw [hr]; rfl, hb, ?_⟩
          intro p hp1
          simp only [List.mem_cons] at hp1
          rcases hp1 with rfl | hp1
          · simp only; omega
          · exact hp p hp1
        · simp only [h2, if_false]
          refine ⟨_, rfl, by simp, ?_⟩
          intro p hp
          simp only [List.mem_singleton] at hp
          subst hp
          simp only
          omega
    · simp only [hle, if_false]
      exact ⟨_, rfl, by simp, by simp⟩

theorem sorted_getElem (data : List Index) (hs : SortedByTrigram data)
    (i j : Nat) (hi : i < data.length) (hj : j < data.length) (hij : i < j) :
    (data[i]).trigram < (data[j]).trigram :=
  List.pairwise_iff_getElem.mp hs i j hi hj hij

theorem searchLoop_sorted (data : List Index) (trigram : Nat) (hs : SortedByTrigram data)
    (hn : 2 * data.length ≤ SIZE_MOD) :
    ∀ (fuel low high : Nat) (r : Found × List Probe),
      searchLoop data trigram fuel low high = some r → high < data.length →
      (∀ i (h : i < data.length), i < low → (data[i]).trigram < trigram) →
      (∀ i (h : i < data.length), high < i → trigram < (data[i]).trigram) →
      (∀ mid, r.1 = Found.hit mid → ∃ h : mid < data.length, (data[mid]).trigram = trigram) ∧
      (r.1 = Found.miss → ∀ e ∈ data, e.trigram ≠ trigram) := by
  intro fuel
  induction fuel with
  | zero => intro low high r h; simp [searchLoop] at h
  | succ fuel ih =>
    intro low high r hr hh hlo hhi
    rw [searchLoop] at hr
    by_cases hle : low ≤ high
    · have hmid : (low + high) % SIZE_MOD / 2 = (low + high) / 2 := by
        unfold SIZE_MOD at *; omega
      have hlt : (low + high) / 2 < data.length := by omega
      simp only [hle, if_true, hmid, List.getElem?_eq_getElem hlt] at hr
      by_cases h1 : trigram < (data[(low + high) / 2]).trigram
      · simp only [h1, if_true] at hr
        by_cases h0 : (low + high) / 2 = 0
        · simp only [h0, if_true, Option.some.injEq] at hr
          subst hr
          refine ⟨by simp, ?_⟩
          intro _ e he
          obtain ⟨i, hi, rfl⟩ := List.getElem_of_mem he
          have h1' : trigram < (data[0]).trigram := by simpa [h0] using h1
          rcases Nat.eq_zero_or_pos i with hz | hz
          · subst hz; omega
          · have := sorted_getElem data hs 0 i (by omega) hi hz
            omega
        · simp only [h0, if_false] at hr
          have hm1 : ((low + high) / 2 + SIZE_MOD - 1) % SIZE_MOD = (low + high) / 2 - 1 := by
            unfold SIZE_MOD at *; omega
          rw [hm1] at hr
          cases hrec : searchLoop data trigram fuel low ((low + high) / 2 - 1) with
          | none => simp [hrec] at hr
          | some r' =>
            simp only [hrec, Option.map_some', Option.some.injEq] at hr
            subst hr
            refine ih low ((low + high) / 2 - 1) r' hrec (by omega) hlo ?_
            intro i hi hgt
            rcases Nat.lt_or_ge ((low + high) / 2) i with hc | hc
            · have := sorted_getElem data hs ((low + high) / 2) i hlt hi hc
              omega
            · have hie : i = (low + high) / 2 := by omega
              subst hie
              exact h1
      · simp only [h1, if_false] at hr
        by_cases h2 : trigram > (data[(low + high) / 2]).trigram
        · simp only [h2, if_true] at hr
          have hp1 : ((low + high) / 2 + 1) % SIZE_MOD = (low + high) / 2 + 1 := by
            unfold SIZE_MOD at *; omega
          rw [hp1] at hr
          cases hrec : searchLoop data trigram fuel ((low + high) / 2 + 1) high with
          | none => simp [hrec] at hr
          | some r' =>
            simp only [hrec, Option.map_some', Option.some.injEq] at hr
            subst hr
            refine ih ((low + high) / 2 + 1) high r' hrec hh ?_ hhi
            intro i hi hgt
            rcases Nat.lt_or_ge i ((low + high) / 2) with hc | hc
            · have := sorted_getElem data hs i ((low + high) / 2) hi hlt hc
              omega
            · have hie : i = (low + high) / 2 := by omega
              subst hie
              exact h2
        · simp only [h2, if_false, Option.some.injEq] at hr
          subst hr
          refine ⟨?_, by simp⟩
          intro mid hm
          simp only [Found.hit.injEq] at hm
          subst hm
          exact ⟨hlt, by omega⟩
    · simp only [hle, if_false, Option.some.injEq] at hr
      subst hr
      refine ⟨by simp, ?_⟩
      intro _ e he
      obtain ⟨i, hi, rfl⟩ := List.getElem_of_mem he
      rcases Nat.lt_or_ge i low with hc | hc
      · have := hlo i hi hc
        omega
      · have := hhi i hi (by omega)
        omega

/-! ## Theorems: the cache and `DbReader::get` -/

theorem Chunks.find_set_self (m : Chunks) (k : Nat) (v : CompressedIds) :
    (m.set k v).find k = some v := by
  simp [Chunks.set, Chunks.find, List.lookup]

theorem Chunks.lookup_filter_ne (m : Chunks) (k k' : Nat) (h : k' ≠ k) :
    (m.filter (fun p => p.1 != k)).lookup k' = m.lookup k' := by
  induction m with
  | nil => rfl
  | cons p m ih =>
    obtain ⟨a, b⟩ := p
    by_cases ha : a = k
    · subst ha
      have hk : (k' == a) = false := by simpa using h
      simp [List.filter, List.lookup, hk, ih]
    · have hf : (a != k) = true := by simpa using ha
      simp only [List.filter, hf, List.lookup, ih]

theorem Chunks.find_set_ne (m : Chunks) (k k' : Nat) (v : CompressedIds) (h : k' ≠ k) :
    (m.set k v).find k' = m.find k' := by
  have hk : (k' == k) = false := by simpa using h
  simp only [Chunks.set, Chunks.find, List.lookup, hk]
  exact Chunks.lookup_filter_ne m k k' h

theorem search_total (data : List Index) (trigram : Nat) (hne : data ≠ [])
    (hn : 2 * data.length ≤ SIZE_MOD) :
    ∃ r, search data trigram (data.length + 1) = some r ∧ (∀ m, r.1 ≠ Found.badRead m) ∧
      ∀ p ∈ r.2, p.low ≤ p.mid ∧ p.mid ≤ p.high ∧ p.high < data.length := by
  have hpos : 0 < data.length := List.length_pos.mpr hne
  have hh : (data.length + SIZE_MOD - 1) % SIZE_MOD = data.length - 1 := by
    unfold SIZE_MOD at *; omega
  unfold search
  rw [hh]
  exact searchLoop_safe data trigram hn (data.length + 1) 0 (data.length - 1) (by omega) (by omega)

theorem search_hit_lt (data : List Index) (trigram : Nat) :
    ∀ (fuel low high mid : Nat) (probes : List Probe),
      searchLoop data trigram fuel low high = some (Found.hit mid, probes) →
      ∃ index, data[mid]? = some index ∧ index.trigram = trigram := by
  intro fuel
  induction fuel with
  | zero => intro low high mid probes h; simp [searchLoop] at h
  | succ fuel ih =>
    intro low high mid probes h
    rw [searchLoop] at h
    split at h
    · simp only at h
      split at h
      · simp at h
      · rename_i e he
        split at h
        · split at h
          · simp at h
          · cases hrec : searchLoop data trigram fuel low
                (((low + high) % SIZE_MOD / 2 + SIZE_MOD - 1) % SIZE_MOD) with
            | none => simp [hrec] at h
            | some r' =>
              obtain ⟨f, ps⟩ := r'
              simp only [hrec, Option.map_some', Option.some.injEq, Prod.mk.injEq] at h
              obtain ⟨hf, _⟩ := h
              subst hf
              exact ih _ _ _ _ hrec
        · split at h
          · cases hrec : searchLoop data trigram fuel (((low + high) % SIZE_MOD / 2 + 1) % SIZE_MOD)
                high with
            | none => simp [hrec] at h
            | some r' =>
              obtain ⟨f, ps⟩ := r'
              simp only [hrec, Option.map_some', Option.some.injEq, Prod.mk.injEq] at h
              obtain ⟨hf, _⟩ := h
              subst hf
              exact ih _ _ _ _ hrec
          · simp only [Option.some.injEq, Prod.mk.injEq, Found.hit.injEq] at h
            obtain ⟨hm, _⟩ := h
            subst hm
            exact ⟨e, he, by omega⟩
    · simp at h

/-- The state `get` leaves after a hit on `index` for an uncached trigram. -/
theorem get_cases (validate : CompressedIds → Bool) (db : DbReader) (trigram : Nat)
    (hn : 2 * db.m_indexes.length ≤ SIZE_MOD) (hc : db.m_chunks.find trigram = none) :
    (∃ mid index probes, db.m_indexes ≠ [] ∧
      search db.m_indexes trigram (db.m_indexes.length + 1) = some (Found.hit mid, probes) ∧
      db.m_indexes[mid]? = some index ∧ index.trigram = trigram ∧
      get validate db trigram =
        ((if validate (chunkOf db.m_dataFile index) = true
            then GetResult.ok (chunkOf db.m_dataFile index) else GetResult.corruptList),
          { db with
            m_chunks := (db.m_chunks.set trigram CompressedIds.empty).set trigram
              (chunkOf db.m_dataFile index),
            reads := db.reads ++ [(index.offset, index.size)] })) ∨
    ((db.m_indexes = [] ∨
        ∃ probes, search db.m_indexes trigram (db.m_indexes.length + 1)
          = some (Found.miss, probes)) ∧
      get validate db trigram =
        (GetResult.ok CompressedIds.empty,
          { db with m_chunks := db.m_chunks.set trigram CompressedIds.empty })) := by
  by_cases hne : db.m_indexes = []
  · right
    refine ⟨Or.inl hne, ?_⟩
    simp [get, getWith, hc, hne]
  · obtain ⟨r, hr, hb, _⟩ := search_total db.m_indexes trigram hne hn
    have hemp : db.m_indexes.isEmpty = false := by
      cases hd : db.m_indexes with
      | nil => exact absurd hd hne
      | cons a l => rfl
    obtain ⟨f, probes⟩ := r
    cases f with
    | badRead m => exact absurd rfl (hb m)
    | miss =>
      right
      refine ⟨Or.inr ⟨probes, hr⟩, ?_⟩
      simp [get, getWith, hc, hemp, hr]
    | hit mid =>
      left
      obtain ⟨index, hi, ht⟩ := search_hit_lt db.m_indexes trigram _ _ _ _ _ hr
      refine ⟨mid, index, probes, hne, hr, hi, ht, ?_⟩
      simp only [get, getWith, hc, hemp, hr, hi, readChunks]
      cases hv : validate (chunkOf db.m_dataFile index) <;> simp

theorem get_cached (validate : CompressedIds → Bool) (db : DbReader) (trigram : Nat)
    (ids : CompressedIds) (hc : db.m_chunks.find trigram = some ids) :
    get validate db trigram = (GetResult.ok ids, db) := by
  simp [get, getWith, hc]

theorem get_uncached_result (validate : CompressedIds → Bool) (db : DbReader) (trigram : Nat)
    (hn : 2 * db.m_indexes.length ≤ SIZE_MOD) (hc : db.m_chunks.find trigram = none) :
    (get validate db trigram).1
      = (get validate (DbReader.opened db.m_dataFile db.m_indexes) trigram).1 := by
  have hf : (DbReader.opened db.m_dataFile db.m_indexes).m_chunks.find trigram = none := rfl
  rcases get_cases validate db trigram hn hc with
    ⟨mid, index, probes, hne, hs, hi, _, hg⟩ | ⟨hm, hg⟩
  · rcases get_cases validate (DbReader.opened db.m_dataFile db.m_indexes) trigram hn hf with
      ⟨mid', index', probes', _, hs', hi', _, hg'⟩ | ⟨hm', hg'⟩
    · simp only [DbReader.opened] at hs' hi'
      rw [hs] at hs'
      simp only [Option.some.injEq, Prod.mk.injEq, Found.hit.injEq] at hs'
      obtain ⟨hmm, _⟩ := hs'
      subst hmm
      rw [hi] at hi'
      simp only [Option.some.injEq] at hi'
      subst hi'
      rw [hg, hg']
      rfl
    · rcases hm' with he | ⟨probes', hs'⟩
      · exact absurd he hne
      · simp only [DbReader.opened] at hs'
        rw [hs] at hs'
        simp at hs'
  · rcases get_cases validate (DbReader.opened db.m_dataFile db.m_indexes) trigram hn hf with
      ⟨mid', index', probes', hne', hs', hi', _, hg'⟩ | ⟨hm', hg'⟩
    · rcases hm with he | ⟨probes, hs⟩
      · exact absurd he hne'
      · simp only [DbReader.opened] at hs'
        rw [hs] at hs'
        simp at hs'
    · rw [hg, hg']

/-- What one `get` does to a reader all of whose stored lists pass `validate`. -/
theorem get_valid_step (validate : CompressedIds → Bool) (db : DbReader) (trigram : Nat)
    (hn : 2 * db.m_indexes.length ≤ SIZE_MOD)
    (hv : ∀ e ∈ db.m_indexes, validate (chunkOf db.m_dataFile e) = true) :
    ∃ ids, (get validate db trigram).1 = GetResult.ok ids ∧
      (get validate db trigram).2.m_dataFile = db.m_dataFile ∧
      (get validate db trigram).2.m_indexes = db.m_indexes ∧
      (get validate db trigram).2.m_chunks.find trigram = some ids ∧
      (∀ k, k ≠ trigram →
        (get validate db trigram).2.m_chunks.find k = db.m_chunks.find k) ∧
      (∀ v, db.m_chunks.find trigram = some v →
        ids = v ∧ (get validate db trigram).2.reads = db.reads) := by
  cases hc : db.m_chunks.find trigram with
  | some v =>
    refine ⟨v, ?_⟩
    rw [get_cached validate db trigram v hc]
    exact ⟨rfl, rfl, rfl, hc, fun _ _ => rfl, fun w hw => ⟨by simpa using hw, rfl⟩⟩
  | none =>
    rcases get_cases validate db trigram hn hc with
      ⟨mid, index, probes, hne, hs, hi, _, hg⟩ | ⟨hm, hg⟩
    · have hmem : index ∈ db.m_indexes := List.mem_iff_getElem?.mpr ⟨mid, hi⟩
      have hval := hv index hmem
      refine ⟨chunkOf db.m_dataFile index, ?_⟩
      rw [hg]
      simp only [hval, if_true]
      refine ⟨trivial, trivial, trivial, Chunks.find_set_self _ _ _, ?_, ?_⟩
      · intro k hk
        rw [Chunks.find_set_ne _ _ _ _ hk, Chunks.find_set_ne _ _ _ _ hk]
      · intro v hv'
        simp at hv'
    · refine ⟨CompressedIds.empty, ?_⟩
      rw [hg]
      refine ⟨rfl, rfl, rfl, Chunks.find_set_self _ _ _, ?_, ?_⟩
      · intro k hk
        exact Chunks.find_set_ne _ _ _ _ hk
      · intro v hv'
        simp at hv'

theorem runOps_cons (validate : CompressedIds → Bool) (db : DbReader) (op : Op)
    (ops : List Op) :
    runOps validate db (op :: ops) = runOps validate (Op.apply validate db op) ops := rfl

/-- The cache of a reader holds, for every trigram in it, the list a freshly
opened reader returns for that trigram. -/
theorem runOps_invariant (validate : CompressedIds → Bool) (dataFile : Nat → Nat → List Nat)
    (indexes : List Index) (hn : 2 * indexes.length ≤ SIZE_MOD)
    (hv : ∀ e ∈ indexes, validate (chunkOf dataFile e) = true) (ops : List Op) :
    ∀ db : DbReader, db.m_dataFile = dataFile → db.m_indexes = indexes →
      (∀ k v, db.m_chunks.find k = some v →
        (get validate (DbReader.opened dataFile indexes) k).1 = GetResult.ok v) →
      (runOps validate db ops).m_dataFile = dataFile ∧
      (runOps validate db ops).m_indexes = indexes ∧
      (∀ k v, (runOps validate db ops).m_chunks.find k = some v →
        (get validate (DbReader.opened dataFile indexes) k).1 = GetResult.ok v) := by
  induction ops with
  | nil => intro db h1 h2 h3; exact ⟨h1, h2, h3⟩
  | cons op ops ih =>
    intro db h1 h2 h3
    rw [runOps_cons]
    cases op with
    | clearCache =>
      refine ih (clearCache db) h1 h2 ?_
      intro k v hk
      simp [clearCache, Chunks.find] at hk
    | get t =>
      obtain ⟨ids, hr, hd, hix, hft, hfk, hcached⟩ :=
        get_valid_step validate db t (by rw [h2]; exact hn) (by rw [h1, h2]; exact hv)
      refine ih (get validate db t).2 (hd.trans h1) (hix.trans h2) ?_
      intro k v hk
      by_cases hkt : k = t
      · subst hkt
        rw [hft] at hk
        simp only [Option.some.injEq] at hk
        subst hk
        cases hc : db.m_chunks.find k with
        | some w =>
          obtain ⟨hw, _⟩ := hcached w hc
          subst hw
          exact h3 k ids hc
        | none =>
          have := get_uncached_result validate db k (by rw [h2]; exact hn) hc
          rw [h1, h2] at this
          rw [← this, hr]
      · rw [hfk k hkt] at hk
        exact h3 k v hk

/-- Whenever `get` fails with `CorruptList`, the same call made again returns a
list instead of failing. -/
theorem get_again_after_corrupt (validate : CompressedIds → Bool) (db : DbReader)
    (trigram : Nat) (hn : 2 * db.m_indexes.length ≤ SIZE_MOD)
    (hfail : (get validate db trigram).1 = GetResult.corruptList) :
    ∃ ids, validate ids = false ∧
      (get validate (get validate db trigram).2 trigram).1 = GetResult.ok ids := by
  cases hc : db.m_chunks.find trigram with
  | some v =>
    rw [get_cached validate db trigram v hc] at hfail
    simp at hfail
  | none =>
    rcases get_cases validate db trigram hn hc with
      ⟨mid, index, probes, _, _, _, _, hg⟩ | ⟨_, hg⟩
    · rw [hg] at hfail ⊢
      cases hv : validate (chunkOf db.m_dataFile index) with
      | true => simp [hv] at hfail
      | false =>
        refine ⟨chunkOf db.m_dataFile index, hv, ?_⟩
        simp only
        rw [get_cached validate _ trigram (chunkOf db.m_dataFile index)
          (Chunks.find_set_self _ _ _)]
    · rw [hg] at hfail
      simp at hfail

/-- C9: the binary search of `DbReader::get` is safe and terminating. For every
reader, whatever its index vector holds and whatever is cached, with at most
`SIZE_MOD / 2` index entries (a bound every vector in memory meets), `get`
neither runs out of iterations within `size() + 1` of them nor reads outside the
vector, the empty vector included; and for a non-empty vector the loop ends, and
in every iteration `low ≤ mid ≤ high < size()`, so each `mid` read is in range and
neither `size() - 1` nor `mid - 1` wrapped around. -/
theorem get_search_safe_terminating (validate : CompressedIds → Bool) (db : DbReader)
    (trigram : Nat) (hn : 2 * db.m_indexes.length ≤ SIZE_MOD) :
    (get validate db trigram).1 ≠ GetResult.noFuel ∧
    (get validate db trigram).1 ≠ GetResult.badRead ∧
    (db.m_indexes ≠ [] →
      ∃ found probes,
        search db.m_indexes trigram (db.m_indexes.length + 1) = some (found, probes) ∧
        (∀ m, found ≠ Found.badRead m) ∧
        ∀ p ∈ probes, p.low ≤ p.mid ∧ p.mid ≤ p.high ∧ p.high < db.m_indexes.length) := by
  refine ⟨?_, ?_, ?_⟩
  · cases hc : db.m_chunks.find trigram with
    | some v => rw [get_cached validate db trigram v hc]; simp
    | none =>
      rcases get_cases validate db trigram hn hc with
        ⟨mid, index, probes, _, _, _, _, hg⟩ | ⟨_, hg⟩
      · rw [hg]; split <;> simp
      · rw [hg]; simp
  · cases hc : db.m_chunks.find trigram with
    | some v => rw [get_cached validate db trigram v hc]; simp
    | none =>
      rcases get_cases validate db trigram hn hc with
        ⟨mid, index, probes, _, _, _, _, hg⟩ | ⟨_, hg⟩
      · rw [hg]; split <;> simp
      · rw [hg]; simp
  · intro hne
    obtain ⟨r, hr, hb, hp⟩ := search_total db.m_indexes trigram hne hn
    exact ⟨r.1, r.2, hr, hb, hp⟩

/-- C9, at a concrete input: a vector of three entries that is not sorted. -/
theorem get_search_safe_terminating_witness :
    (2 * (DbReader.opened (fileOfBytes [1, 2, 3])
        [⟨9, 0, 1, 1⟩, ⟨4, 1, 1, 2⟩, ⟨7, 2, 1, 3⟩]).m_indexes.length ≤ SIZE_MOD) ∧
    (get CompressedIds.validate (DbReader.opened (fileOfBytes [1, 2, 3])
        [⟨9, 0, 1, 1⟩, ⟨4, 1, 1, 2⟩, ⟨7, 2, 1, 3⟩]) 7).1 ≠ GetResult.noFuel :=
  ⟨by decide,
    (get_search_safe_terminating CompressedIds.validate (DbReader.opened (fileOfBytes [1, 2, 3])
        [⟨9, 0, 1, 1⟩, ⟨4, 1, 1, 2⟩, ⟨7, 2, 1, 3⟩]) 7 (by decide)).1⟩

/-- Lookup on a fresh reader over a sorted index vector, in terms of `chunkOf`. -/
theorem get_lookup_chunk (validate : CompressedIds → Bool) (dataFile : Nat → Nat → List Nat)
    (indexes : List Index) (trigram : Nat) (hs : SortedByTrigram indexes)
    (hn : 2 * indexes.length ≤ SIZE_MOD) :
    (∀ e ∈ indexes, e.trigram = trigram →
      (get validate (DbReader.opened dataFile indexes) trigram).2.reads = [(e.offset, e.size)] ∧
      (get validate (DbReader.opened dataFile indexes) trigram).2.m_chunks.find trigram
        = some (chunkOf dataFile e) ∧
      (get validate (DbReader.opened dataFile indexes) trigram).1
        = if validate (chunkOf dataFile e) = true then GetResult.ok (chunkOf dataFile e)
          else GetResult.corruptList) ∧
    ((∀ e ∈ indexes, e.trigram ≠ trigram) →
      (get validate (DbReader.opened dataFile indexes) trigram).1
        = GetResult.ok CompressedIds.empty ∧
      (get validate (DbReader.opened dataFile indexes) trigram).2.reads = []) ∧
    ((get validate (DbReader.opened dataFile indexes) trigram).2.reads ≠ [] ↔
      ∃ e ∈ indexes, e.trigram = trigram) := by
  have hf : (DbReader.opened dataFile indexes).m_chunks.find trigram = none := rfl
  rcases get_cases validate (DbReader.opened dataFile indexes) trigram hn hf with
    ⟨mid, index, probes, hne, hsr, hi, ht, hg⟩ | ⟨hm, hg⟩
  · simp only [DbReader.opened] at hi hg
    have hmem : index ∈ indexes := List.mem_iff_getElem?.mpr ⟨mid, hi⟩
    have huniq : ∀ e ∈ indexes, e.trigram = trigram → e = index := by
      intro e he het
      obtain ⟨i, hil, rfl⟩ := List.getElem_of_mem he
      obtain ⟨hml, hmi⟩ := List.getElem?_eq_some.mp hi
      subst hmi
      rcases Nat.lt_trichotomy i mid with h | h | h
      · have := sorted_getElem indexes hs i mid hil hml h
        omega
      · subst h; rfl
      · have := sorted_getElem indexes hs mid i hml hil h
        omega
    refine ⟨?_, ?_, ?_⟩
    · intro e he het
      have := huniq e he het
      subst this
      simp only [DbReader.opened]
      rw [hg]
      exact ⟨rfl, Chunks.find_set_self _ _ _, rfl⟩
    · intro hno
      exact absurd ht (hno index hmem)
    · simp only [DbReader.opened]
      rw [hg]
      simp only [List.nil_append, ne_eq, List.cons_ne_nil, not_false_eq_true, true_iff]
      exact ⟨index, hmem, ht⟩
  · simp only [DbReader.opened] at hm hg
    have hnone : ∀ e ∈ indexes, e.trigram ≠ trigram := by
      rcases hm with he | ⟨probes, hsr⟩
      · subst he; intro e he; simp at he
      · have hne : indexes ≠ [] := by
          intro he
          subst he
          simp [search, searchLoop, SIZE_MOD] at hsr
        have hpos : 0 < indexes.length := List.length_pos.mpr hne
        have hh : (indexes.length + SIZE_MOD - 1) % SIZE_MOD = indexes.length - 1 := by
          unfold SIZE_MOD at *; omega
        unfold search at hsr
        rw [hh] at hsr
        exact (searchLoop_sorted indexes trigram hs hn _ 0 (indexes.length - 1) _ hsr (by omega)
          (by intro i _ h0; omega) (by intro i hi h1; omega)).2 rfl
    refine ⟨?_, ?_, ?_⟩
    · intro e he het
      exact absurd het (hnone e he)
    · intro _
      simp only [DbReader.opened]
      rw [hg]
      exact ⟨rfl, rfl⟩
    · simp only [DbReader.opened]
      rw [hg]
      simp only [ne_eq, not_true_eq_false, false_iff, not_exists, not_and]
      intro e he
      exact hnone e he

/-- C1: lookup correctness of `DbReader::get`. For an index vector sorted strictly
ascending by trigram (the empty one included) and a reader with an empty cache:
if an entry has the trigram, `get` reads the data file exactly once, at that
entry's `(offset, size)`; the list stored for the trigram holds the bytes read
there as its data and the entry's `lastId`; and that list is returned when it
validates (`CorruptList` otherwise). If no entry has the trigram, `get` returns
the list without bytes and with `lastId` zero, stores it for the trigram, and
reads nothing. So the data file is read iff some entry has the trigram. -/
theorem get_lookup_correct (validate : CompressedIds → Bool) (dataFile : Nat → Nat → List Nat)
    (indexes : List Index) (trigram : Nat) (hs : SortedByTrigram indexes)
    (hn : 2 * indexes.length ≤ SIZE_MOD) :
    (∀ e ∈ indexes, e.trigram = trigram →
      (get validate (DbReader.opened dataFile indexes) trigram).2.reads = [(e.offset, e.size)] ∧
      (get validate (DbReader.opened dataFile indexes) trigram).2.m_chunks.find trigram
        = some ⟨dataFile e.offset e.size, e.lastId⟩ ∧
      (get validate (DbReader.opened dataFile indexes) trigram).1
        = if validate ⟨dataFile e.offset e.size, e.lastId⟩ = true
          then GetResult.ok ⟨dataFile e.offset e.size, e.lastId⟩
          else GetResult.corruptList) ∧
    ((∀ e ∈ indexes, e.trigram ≠ trigram) →
      (get validate (DbReader.opened dataFile indexes) trigram).1 = GetResult.ok ⟨[], 0⟩ ∧
      (get validate (DbReader.opened dataFile indexes) trigram).2.m_chunks.find trigram
        = some ⟨[], 0⟩ ∧
      (get validate (DbReader.opened dataFile indexes) trigram).2.reads = []) ∧
    ((get validate (DbReader.opened dataFile indexes) trigram).2.reads ≠ [] ↔
      ∃ e ∈ indexes, e.trigram = trigram) := by
  obtain ⟨h1, h2, h3⟩ := get_lookup_chunk validate dataFile indexes trigram hs hn
  refine ⟨fun e he het => h1 e he het, ?_, h3⟩
  intro hno
  obtain ⟨hr, hreads⟩ := h2 hno
  refine ⟨hr, ?_, hreads⟩
  have hf : (DbReader.opened dataFile indexes).m_chunks.find trigram = none := rfl
  rcases get_cases validate (DbReader.opened dataFile indexes) trigram hn hf with
    ⟨mid, index, probes, _, _, hi, ht, _⟩ | ⟨_, hg⟩
  · exact absurd ht (hno index (List.mem_iff_getElem?.mpr ⟨mid, hi⟩))
  · rw [hg]
    exact Chunks.find_set_self _ _ _

/-- C1, at a concrete input: two entries over the data bytes `7, 3`; the lookup
of the second reads one byte at offset 1 and returns the list with data `3` and
`lastId` 3. -/
theorem get_lookup_correct_witness :
    SortedByTrigram [⟨5, 0, 1, 7⟩, ⟨8, 1, 1, 3⟩] ∧
    (get CompressedIds.validate (DbReader.opened (fileOfBytes [7, 3])
      [⟨5, 0, 1, 7⟩, ⟨8, 1, 1, 3⟩]) 8).2.reads = [(1, 1)] ∧
    (get CompressedIds.validate (DbReader.opened (fileOfBytes [7, 3])
      [⟨5, 0, 1, 7⟩, ⟨8, 1, 1, 3⟩]) 8).2.m_chunks.find 8 = some ⟨[3], 3⟩ ∧
    (get CompressedIds.validate (DbReader.opened (fileOfBytes [7, 3])
      [⟨5, 0, 1, 7⟩, ⟨8, 1, 1, 3⟩]) 8).1 = GetResult.ok ⟨[3], 3⟩ :=
  have h := (get_lookup_correct CompressedIds.validate (fileOfBytes [7, 3])
    [⟨5, 0, 1, 7⟩, ⟨8, 1, 1, 3⟩] 8 (by decide) (by decide)).1 ⟨8, 1, 1, 3⟩ (by decide) rfl
  ⟨by decide, h.1, h.2.1.trans (by decide), h.2.2.trans (by decide)⟩

/-- C2: a list that failed `validate` is handed back by the next call. Trigram
`0x616263` has the one-byte blob `0x80`, which ends inside a varint. The first
`get` fails with `CorruptList`; the entry it made in the cache stays, so the
second `get` returns that list. -/
theorem get_returns_corrupt_list_from_cache :
    (get CompressedIds.validate
      (DbReader.opened (fileOfBytes [128, 3]) [⟨6382179, 0, 1, 5⟩, ⟨6382180, 1, 1, 3⟩])
      6382179).1 = GetResult.corruptList ∧
    (get CompressedIds.validate
      (get CompressedIds.validate
        (DbReader.opened (fileOfBytes [128, 3]) [⟨6382179, 0, 1, 5⟩, ⟨6382180, 1, 1, 3⟩])
        6382179).2 6382179).1 = GetResult.ok ⟨[128], 5⟩ ∧
    CompressedIds.validate ⟨[128], 5⟩ = false ∧
    (get CompressedIds.validate
      (DbReader.opened (fileOfBytes [128, 3]) [⟨6382179, 0, 1, 5⟩, ⟨6382180, 1, 1, 3⟩])
      6382180).1 = GetResult.ok ⟨[3], 3⟩ := by
  decide

/-- C3: cache transparency of `DbReader`. When the list of every index entry
passes `validate`, then after any sequence of `get` and `clearCache` calls on a
freshly opened reader, `get(t)` returns a list, the same one a freshly opened
reader returns; a second `get(t)` returns the same list and reads nothing from
the data file; and `get(t)` after `clearCache()` returns the same list again. -/
theorem get_cache_transparent (validate : CompressedIds → Bool)
    (dataFile : Nat → Nat → List Nat) (indexes : List Index)
    (hn : 2 * indexes.length ≤ SIZE_MOD)
    (hv : ∀ e ∈ indexes, validate (chunkOf dataFile e) = true) (ops : List Op) (t : Nat) :
    ∃ ids,
      (get validate (DbReader.opened dataFile indexes) t).1 = GetResult.ok ids ∧
      (get validate (runOps validate (DbReader.opened dataFile indexes) ops) t).1
        = GetResult.ok ids ∧
      (get validate
        (get validate (runOps validate (DbReader.opened dataFile indexes) ops) t).2 t).1
        = GetResult.ok ids ∧
      (get validate
        (get validate (runOps validate (DbReader.opened dataFile indexes) ops) t).2 t).2.reads
        = (get validate (runOps validate (DbReader.opened dataFile indexes) ops) t).2.reads ∧
      (get validate (clearCache
        (get validate (runOps validate (DbReader.opened dataFile indexes) ops) t).2) t).1
        = GetResult.ok ids := by
  have hcall : ∀ l : List Op, ∃ ids,
      (get validate (DbReader.opened dataFile indexes) t).1 = GetResult.ok ids ∧
      (get validate (runOps validate (DbReader.opened dataFile indexes) l) t).1
        = GetResult.ok ids := by
    intro l
    obtain ⟨h1, h2, h3⟩ := runOps_invariant validate dataFile indexes hn hv (l ++ [Op.get t])
      (DbReader.opened dataFile indexes) rfl rfl (by intro k v hk; simp [DbReader.opened, Chunks.find] at hk)
    obtain ⟨g1, g2, g3⟩ := runOps_invariant validate dataFile indexes hn hv l
      (DbReader.opened dataFile indexes) rfl rfl (by intro k v hk; simp [DbReader.opened, Chunks.find] at hk)
    obtain ⟨ids, hr, _, _, hft, _, _⟩ :=
      get_valid_step validate (runOps validate (DbReader.opened dataFile indexes) l) t
        (by rw [g2]; exact hn) (by rw [g1, g2]; exact hv)
    refine ⟨ids, ?_, hr⟩
    have hrun : runOps validate (DbReader.opened dataFile indexes) (l ++ [Op.get t])
        = (get validate (runOps validate (DbReader.opened dataFile indexes) l) t).2 := by
      simp [runOps, List.foldl_append, Op.apply]
    rw [hrun] at h3
    exact h3 t ids hft
  obtain ⟨ids, hfresh, hrun⟩ := hcall ops
  obtain ⟨g1, g2, _⟩ := runOps_invariant validate dataFile indexes hn hv ops
    (DbReader.opened dataFile indexes) rfl rfl (by intro k v hk; simp [DbReader.opened, Chunks.find] at hk)
  obtain ⟨ids', hr, hd, hix, hft, _, _⟩ :=
    get_valid_step validate (runOps validate (DbReader.opened dataFile indexes) ops) t
      (by rw [g2]; exact hn) (by rw [g1, g2]; exact hv)
  have hids : ids' = ids := by
    rw [hr] at hrun
    simpa using hrun
  subst hids
  refine ⟨ids', hfresh, hr, ?_, ?_, ?_⟩
  · rw [get_cached validate _ t ids' hft]
  · rw [get_cached validate _ t ids' hft]
  · obtain ⟨ids2, h1, h2⟩ := hcall (ops ++ [Op.get t, Op.clearCache])
    have hrun2 : runOps validate (DbReader.opened dataFile indexes) (ops ++ [Op.get t, Op.clearCache])
        = clearCache (get validate (runOps validate (DbReader.opened dataFile indexes) ops) t).2 := by
      simp [runOps, List.foldl_append, Op.apply]
    rw [hrun2] at h2
    rw [h2, ← h1, hfresh]

/-- C3, at a concrete input: `get 5`, `clearCache`, `get 8`, then `get 5`. -/
theorem get_cache_transparent_witness :
    (∀ e ∈ [(⟨5, 0, 1, 7⟩ : Index), ⟨8, 1, 1, 3⟩],
      CompressedIds.validate (chunkOf (fileOfBytes [7, 3]) e) = true) ∧
    ∃ ids,
      (get CompressedIds.validate
        (DbReader.opened (fileOfBytes [7, 3]) [⟨5, 0, 1, 7⟩, ⟨8, 1, 1, 3⟩]) 5).1
        = GetResult.ok ids ∧
      (get CompressedIds.validate (runOps CompressedIds.validate
        (DbReader.opened (fileOfBytes [7, 3]) [⟨5, 0, 1, 7⟩, ⟨8, 1, 1, 3⟩])
        [Op.get 5, Op.clearCache, Op.get 8]) 5).1 = GetResult.ok ids :=
  ⟨by decide,
    (get_cache_transparent CompressedIds.validate (fileOfBytes [7, 3])
      [⟨5, 0, 1, 7⟩, ⟨8, 1, 1, 3⟩] (by decide) (by decide)
      [Op.get 5, Op.clearCache, Op.get 8] 5).imp (fun _ h => ⟨h.1, h.2.1⟩)⟩

/-! ## Theorems: `Glob::compare` -/

/-- C8: the case-insensitive matcher misses a match that starts inside a partial
match, and never matches the empty pattern. Pattern `ab` occurs in `aab` at
offset 1 and `strstr` finds it, but `LiteralCaseInsPattern::match` returns the
empty `Match()`: after `a` matched, the second `a` fails against `b`, the cursor
goes back to the start of the pattern and that `a` is not looked at again. For
the empty pattern `strstr` matches at offset 0 with length 0 and the
case-insensitive matcher returns `Match()`. -/
theorem caseIns_match_misses_overlap :
    LiteralCaseInsPattern.match "ab".toList "aab".toList = ⟨none, 0⟩ ∧
    LiteralPattern.match "ab".toList "aab".toList = ⟨some 1, 2⟩ ∧
    "aab".toList = ['a'] ++ "ab".toList.map TO_LOWER ∧
    LiteralCaseInsPattern.match [] "aab".toList = ⟨none, 0⟩ ∧
    LiteralPattern.match [] "aab".toList = ⟨some 0, 0⟩ := by
  decide

/-! ## Theorems: the producer of `gripgen` -/

/-- A line that starts with the characters of `GRIP_DIR` is never put on the
queue, whatever follows them. -/
theorem producer_skips_grip_dir_start (GRIP_DIR PATH_DELIMITER_S tail : List Char)
    (canonizePath : List Char → Option (List Char)) :
    fileListProducer GRIP_DIR PATH_DELIMITER_S canonizePath (fun _ => true)
      [ReadLine.line (GRIP_DIR ++ tail)] = ⟨[], none, []⟩ := by
  simp [fileListProducer, producerLoop, strncmpEq]

/-- C6: the producer drops a file whose name only starts with `GRIP_DIR`. With
`GRIP_DIR = ".grip"` and `/` as delimiter, of the four lines `.gripfoo.txt`,
`src/a.c`, `.grip/trigrams.data`, `x/.grip/files` only `src/a.c` is put on the
queue: `.gripfoo.txt` is a file outside the index directory, and `strncmp`
over the length of `GRIP_DIR` takes it for one inside. -/
theorem producer_skips_name_with_grip_dir_start :
    (fileListProducer ".grip".toList "/".toList (fun fname => some fname) (fun _ => true)
      [ReadLine.line ".gripfoo.txt".toList, ReadLine.line "src/a.c".toList,
        ReadLine.line ".grip/trigrams.data".toList, ReadLine.line "x/.grip/files".toList])
      = ⟨["src/a.c".toList], none, []⟩ ∧
    strstr ".gripfoo.txt".toList "/".toList = none := by
  decide

/-! ## Theorems: the consumer loop and the exit code of `gripgen` -/

theorem indexedFiles_append (l1 l2 : List Call) :
    indexedFiles (l1 ++ l2) = indexedFiles l1 ++ indexedFiles l2 := by
  induction l1 with
  | nil => rfl
  | cons a l ih =>
    cases a <;> simp [indexedFiles, ih]

/-- What the body of the loop leaves in the log: the call of `indexFile`, and
possibly a call of `write`. -/
theorem loopBody_calls {σ : Type} (ix : Indexer σ) (chunkSize : Nat) (c : Consumer σ)
    (fileName : List Char) :
    (loopBody ix chunkSize c fileName).2.calls = c.calls ++ [Call.indexFile fileName] ∨
    (loopBody ix chunkSize c fileName).2.calls
      = c.calls ++ [Call.indexFile fileName] ++ [Call.write] := by
  unfold loopBody
  split
  · left; rfl
  · split
    · split
      · right; rfl
      · right; rfl
    · left; rfl

theorem loopBody_indexed {σ : Type} (ix : Indexer σ) (chunkSize : Nat) (c : Consumer σ)
    (fileName : List Char) :
    indexedFiles (loopBody ix chunkSize c fileName).2.calls
      = indexedFiles c.calls ++ [fileName] := by
  rcases loopBody_calls ix chunkSize c fileName with h | h
  · rw [h, indexedFiles_append]; rfl
  · rw [h, indexedFiles_append, indexedFiles_append]; simp [indexedFiles]

theorem loopBody_exn {σ : Type} (ix : Indexer σ) (chunkSize : Nat) (c : Consumer σ)
    (fileName : List Char) (e : Exn) (h : (loopBody ix chunkSize c fileName).1 = some e) :
    (ix.indexFile c.indexer fileName).1 = some e ∨
    (ix.write (ix.indexFile c.indexer fileName).2).1 = some e := by
  unfold loopBody at h
  split at h
  · rename_i e' s1 heq
    left
    rw [heq]
    exact h
  · rename_i s1 heq
    split at h
    · split at h
      · rename_i e' s2 heq2
        right
        rw [heq]
        simp only
        rw [heq2]
        exact h
      · simp at h
    · simp at h

theorem consumerLoop_recovers {σ : Type} (ix : Indexer σ) (chunkSize : Nat)
    (hix : ∀ s f, (ix.indexFile s f).1 ≠ some Exn.stdException)
    (hw : ∀ s, (ix.write s).1 ≠ some Exn.stdException) :
    ∀ (delivered : List (List Char)) (c : Consumer σ),
      (consumerLoop ix chunkSize delivered c).1 = none ∧
      indexedFiles (consumerLoop ix chunkSize delivered c).2.calls
        = indexedFiles c.calls ++ delivered := by
  intro delivered
  induction delivered with
  | nil => intro c; simp [consumerLoop]
  | cons f rest ih =>
    intro c
    have hidx := loopBody_indexed ix chunkSize c f
    have hexn := loopBody_exn ix chunkSize c f
    rw [consumerLoop]
    cases hb : loopBody ix chunkSize c f with
    | mk r c1 =>
      rw [hb] at hidx hexn
      simp only at hidx hexn
      cases r with
      | none =>
        simp only
        obtain ⟨h1, h2⟩ := ih c1
        refine ⟨h1, ?_⟩
        rw [h2, hidx]
        simp
      | some e =>
        cases e with
        | error =>
          simp only
          obtain ⟨h1, h2⟩ := ih { c1 with calls := c1.calls ++ [Call.printFileError f] }
          refine ⟨h1, ?_⟩
          rw [h2]
          simp only [indexedFiles_append, hidx]
          simp [indexedFiles]
        | stdException =>
          rcases hexn Exn.stdException rfl with h | h
          · exact absurd h (hix _ _)
          · exact absurd h (hw _)

/-- The loop of the producer never stores to `result`. -/
theorem producerLoop_result (GRIP_DIR PATH_DELIMITER_S : List Char)
    (canonizePath : List Char → Option (List Char)) (running : Nat → Bool) :
    ∀ (files : List ReadLine) (i : Nat) (p : Producer),
      (producerLoop GRIP_DIR PATH_DELIMITER_S canonizePath running files i p).1.result
        = p.result := by
  intro files
  induction files with
  | nil => intro i p; rfl
  | cons r rest ih =>
    intro i p
    simp only [producerLoop]
    split
    · split
      · rfl
      · split
        · exact ih _ _
        · split
          · exact ih _ _
          · split
            · rw [ih]
            · rw [ih]
    · rfl

theorem consumerLoop_error_step {σ : Type} (ix : Indexer σ) (chunkSize : Nat)
    (fileName : List Char) (rest : List (List Char)) (c : Consumer σ) (s1 : σ)
    (h : ix.indexFile c.indexer fileName = (some Exn.error, s1)) :
    consumerLoop ix chunkSize (fileName :: rest) c
      = consumerLoop ix chunkSize rest
          ⟨s1, c.chunksNo, c.calls ++ [Call.indexFile fileName]
            ++ [Call.printFileError fileName]⟩ := by
  have hbody : loopBody ix chunkSize c fileName
      = (some Exn.error, ⟨s1, c.chunksNo, c.calls ++ [Call.indexFile fileName]⟩) := by
    simp only [loopBody, h]
  rw [consumerLoop, hbody]

theorem consumerLoop_ok_step {σ : Type} (ix : Indexer σ) (chunkSize : Nat)
    (fileName : List Char) (rest : List (List Char)) (c : Consumer σ) (s1 : σ)
    (h : ix.indexFile c.indexer fileName = (none, s1)) (hsize : ix.size s1 < chunkSize) :
    consumerLoop ix chunkSize (fileName :: rest) c
      = consumerLoop ix chunkSize rest ⟨s1, c.chunksNo, c.calls ++ [Call.indexFile fileName]⟩ := by
  have hbody : loopBody ix chunkSize c fileName
      = (none, ⟨s1, c.chunksNo, c.calls ++ [Call.indexFile fileName]⟩) := by
    have : ¬ ix.size s1 ≥ chunkSize := by omega
    simp only [loopBody, h, this, if_false]
  rw [consumerLoop, hbody]

/-- The indexer the loop leaves is the one left by calling `indexFile` on each
delivered path in order. -/
theorem consumerLoop_indexer {σ : Type} (ix : Indexer σ) (chunkSize : Nat)
    (hix : ∀ s f, (ix.indexFile s f).1 ≠ some Exn.stdException)
    (hw : ∀ s, (ix.write s).1 ≠ some Exn.stdException) :
    ∀ (delivered : List (List Char)) (c : Consumer σ),
      (consumerLoop ix chunkSize delivered c).2.indexer
        = indexedInOrder ix chunkSize delivered c.indexer := by
  intro delivered
  induction delivered with
  | nil => intro c; rfl
  | cons f rest ih =>
    intro c
    rw [consumerLoop, indexedInOrder]
    cases hi : ix.indexFile c.indexer f with
    | mk r s1 =>
      cases r with
      | some e =>
        have he : e = Exn.error := by
          have := hix c.indexer f
          rw [hi] at this
          cases e with
          | error => rfl
          | stdException => exact absurd rfl this
        subst he
        simp only [loopBody, hi, Option.isNone_some, Bool.false_eq_true, false_and, if_false]
        rw [ih]
      | none =>
        by_cases hsz : ix.size s1 ≥ chunkSize
        · cases hwr : ix.write s1 with
          | mk r2 s2 =>
            cases r2 with
            | none =>
              simp only [loopBody, hi, hsz, if_true, hwr, Option.isNone_none, and_self]
              rw [ih]
            | some e =>
              have he : e = Exn.error := by
                have := hw s1
                rw [hwr] at this
                cases e with
                | error => rfl
                | stdException => exact absurd rfl this
              subst he
              simp only [loopBody, hi, hsz, if_true, hwr, Option.isNone_none, and_self]
              rw [ih]
        · simp only [loopBody, hi, hsz, if_false, Option.isNone_none, and_false]
          rw [ih]

theorem parseOptions_code (opts : List Opt) :
    ∀ (st : Settings) (code : Int), parseOptions opts st = Sum.inl code → code = 0 := by
  induction opts with
  | nil => intro st code h; simp [parseOptions] at h
  | cons o rest ih =>
    intro st code h
    cases o with
    | s => exact ih _ code (by simpa [parseOptions] using h)
    | u => exact ih _ code (by simpa [parseOptions] using h)
    | v a =>
      cases a with
      | none => exact ih _ code (by simpa [parseOptions] using h)
      | some n => exact ih _ code (by simpa [parseOptions] using h)
    | q => exact ih _ code (by simpa [parseOptions] using h)
    | chunkSize n => exact ih _ code (by simpa [parseOptions] using h)
    | V => simp only [parseOptions, Sum.inl.injEq] at h; exact h.symm
    | h => simp only [parseOptions, Sum.inl.injEq] at h; exact h.symm
    | other => simp only [parseOptions, Sum.inl.injEq] at h; exact h.symm

theorem parseOptions_exit (opts : List Opt) :
    ∀ (st : Settings), (Opt.V ∈ opts ∨ Opt.h ∈ opts ∨ Opt.other ∈ opts) →
      parseOptions opts st = Sum.inl 0 := by
  induction opts with
  | nil => intro st h; simp at h
  | cons o rest ih =>
    intro st h
    have hrest : o ≠ Opt.V → o ≠ Opt.h → o ≠ Opt.other →
        (Opt.V ∈ rest ∨ Opt.h ∈ rest ∨ Opt.other ∈ rest) := by
      intro h1 h2 h3
      simp only [List.mem_cons] at h
      rcases h with (h | h) | (h | h) | (h | h)
      · exact absurd h.symm h1
      · exact Or.inl h
      · exact absurd h.symm h2
      · exact Or.inr (Or.inl h)
      · exact absurd h.symm h3
      · exact Or.inr (Or.inr h)
    cases o with
    | s => simp only [parseOptions]; exact ih _ (hrest (by simp) (by simp) (by simp))
    | u => simp only [parseOptions]; exact ih _ (hrest (by simp) (by simp) (by simp))
    | v a =>
      cases a with
      | none => simp only [parseOptions]; exact ih _ (hrest (by simp) (by simp) (by simp))
      | some n => simp only [parseOptions]; exact ih _ (hrest (by simp) (by simp) (by simp))
    | q => simp only [parseOptions]; exact ih _ (hrest (by simp) (by simp) (by simp))
    | chunkSize n => simp only [parseOptions]; exact ih _ (hrest (by simp) (by simp) (by simp))
    | V => rfl
    | h => rfl
    | other => rfl

/-- With the flag never cleared, `readLine` throws in the producer's loop iff
one of the reads of the input throws. -/
theorem producerLoop_threw (GRIP_DIR PATH_DELIMITER_S : List Char)
    (canonizePath : List Char → Option (List Char)) :
    ∀ (files : List ReadLine) (i : Nat) (p : Producer),
      (producerLoop GRIP_DIR PATH_DELIMITER_S canonizePath (fun _ => true) files i p).2 = true
        ↔ ReadLine.throws ∈ files := by
  intro files
  induction files with
  | nil => intro i p; simp [producerLoop]
  | cons r rest ih =>
    intro i p
    simp only [producerLoop, if_true]
    cases r with
    | throws => simp
    | line fname =>
      simp only [List.mem_cons, reduceCtorEq, false_or]
      split
      · exact ih _ _
      · split
        · exact ih _ _
        · split
          · exact ih _ _
          · exact ih _ _

theorem fileListProducer_result (GRIP_DIR PATH_DELIMITER_S : List Char)
    (canonizePath : List Char → Option (List Char)) (files : List ReadLine) :
    (fileListProducer GRIP_DIR PATH_DELIMITER_S canonizePath (fun _ => true) files).result
      = if ReadLine.throws ∈ files then some 2 else none := by
  have h1 := producerLoop_threw GRIP_DIR PATH_DELIMITER_S canonizePath files 0 ⟨[], none, []⟩
  have h2 := producerLoop_result GRIP_DIR PATH_DELIMITER_S canonizePath (fun _ => true) files 0
    ⟨[], none, []⟩
  unfold fileListProducer
  split
  · rename_i p heq
    rw [heq] at h1
    simp only [true_iff] at h1
    simp [h1]
  · rename_i p heq
    rw [heq] at h1 h2
    simp only [Bool.false_eq_true, false_iff] at h1
    simp only at h2
    simp [h1, h2]

theorem mainRun_loop_none {σ : Type} (GRIP_DIR PATH_DELIMITER_S : List Char)
    (ix : Indexer σ) (env : Env σ) (st : Settings) (s0 : σ) (c : Consumer σ)
    (hopts : parseOptions env.opts Settings.initial = Sum.inr st)
    (hopen : env.filesOpen = none) (hdb : ix.openDb env.init = (none, s0))
    (hloop : consumerLoop ix st.chunkSize
      (fileListProducer GRIP_DIR PATH_DELIMITER_S env.canonizePath (fun _ => true)
        env.files).queue ⟨s0, 0, []⟩ = (none, c)) :
    mainRun GRIP_DIR PATH_DELIMITER_S ix env =
      match env.filesClose with
      | some _ => ⟨1, c.calls ++ [Call.filesClose],
          fileListProducer GRIP_DIR PATH_DELIMITER_S env.canonizePath (fun _ => true) env.files,
          true⟩
      | none =>
        match ix.sortDatabase c.indexer with
        | (some _, _) => ⟨1, c.calls ++ [Call.filesClose, Call.sortDatabase],
            fileListProducer GRIP_DIR PATH_DELIMITER_S env.canonizePath (fun _ => true) env.files,
            true⟩
        | (none, _) =>
          ⟨(fileListProducer GRIP_DIR PATH_DELIMITER_S env.canonizePath (fun _ => true)
              env.files).result.getD 0,
            c.calls ++ [Call.filesClose, Call.sortDatabase],
            fileListProducer GRIP_DIR PATH_DELIMITER_S env.canonizePath (fun _ => true) env.files,
            true⟩ := by
  simp only [mainRun, hopts, hopen, hdb, hloop]

theorem mainRun_loop_some {σ : Type} (GRIP_DIR PATH_DELIMITER_S : List Char)
    (ix : Indexer σ) (env : Env σ) (st : Settings) (s0 : σ) (c : Consumer σ) (e : Exn)
    (hopts : parseOptions env.opts Settings.initial = Sum.inr st)
    (hopen : env.filesOpen = none) (hdb : ix.openDb env.init = (none, s0))
    (hloop : consumerLoop ix st.chunkSize
      (fileListProducer GRIP_DIR PATH_DELIMITER_S env.canonizePath (fun _ => true)
        env.files).queue ⟨s0, 0, []⟩ = (some e, c)) :
    mainRun GRIP_DIR PATH_DELIMITER_S ix env =
      ⟨if (fileListProducer GRIP_DIR PATH_DELIMITER_S env.canonizePath
            (fun i => decide (i < env.itersBeforeCatch)) env.files).result.isNone = true
        then (fileListProducer GRIP_DIR PATH_DELIMITER_S env.canonizePath
            (fun i => decide (i < env.itersBeforeCatch + env.itersBeforeStop))
            env.files).result.getD 1
        else 1,
        c.calls,
        fileListProducer GRIP_DIR PATH_DELIMITER_S env.canonizePath
          (fun i => decide (i < env.itersBeforeCatch + env.itersBeforeStop)) env.files,
        true⟩ := by
  simp only [mainRun, hopts, hopen, hdb, hloop]

theorem parseOptions_mem (opts : List Opt) :
    ∀ (st : Settings) (code : Int), parseOptions opts st = Sum.inl code →
      (Opt.V ∈ opts ∨ Opt.h ∈ opts ∨ Opt.other ∈ opts) := by
  induction opts with
  | nil => intro st code h; simp [parseOptions] at h
  | cons o rest ih =>
    intro st code h
    have lift : (Opt.V ∈ rest ∨ Opt.h ∈ rest ∨ Opt.other ∈ rest) →
        (Opt.V ∈ o :: rest ∨ Opt.h ∈ o :: rest ∨ Opt.other ∈ o :: rest) := by
      intro hr
      rcases hr with hr | hr | hr
      · exact Or.inl (List.mem_cons_of_mem _ hr)
      · exact Or.inr (Or.inl (List.mem_cons_of_mem _ hr))
      · exact Or.inr (Or.inr (List.mem_cons_of_mem _ hr))
    cases o with
    | s => exact lift (ih _ code (by simpa [parseOptions] using h))
    | u => exact lift (ih _ code (by simpa [parseOptions] using h))
    | v a =>
      cases a with
      | none => exact lift (ih _ code (by simpa [parseOptions] using h))
      | some n => exact lift (ih _ code (by simpa [parseOptions] using h))
    | q => exact lift (ih _ code (by simpa [parseOptions] using h))
    | chunkSize n => exact lift (ih _ code (by simpa [parseOptions] using h))
    | V => exact Or.inl (List.mem_cons_self _ _)
    | h => exact Or.inr (Or.inl (List.mem_cons_self _ _))
    | other => exact Or.inr (Or.inr (List.mem_cons_self _ _))

theorem fileListProducer_result_cases (GRIP_DIR PATH_DELIMITER_S : List Char)
    (canonizePath : List Char → Option (List Char)) (running : Nat → Bool)
    (files : List ReadLine) :
    (fileListProducer GRIP_DIR PATH_DELIMITER_S canonizePath running files).result = none ∨
    (fileListProducer GRIP_DIR PATH_DELIMITER_S canonizePath running files).result = some 2 := by
  have h2 := producerLoop_result GRIP_DIR PATH_DELIMITER_S canonizePath running files 0
    ⟨[], none, []⟩
  unfold fileListProducer
  split
  · right; rfl
  · rename_i p heq
    rw [heq] at h2
    left
    exact h2

theorem loopBody_no_sort {σ : Type} (ix : Indexer σ) (chunkSize : Nat) (c : Consumer σ)
    (fileName : List Char) (h : Call.sortDatabase ∉ c.calls) :
    Call.sortDatabase ∉ (loopBody ix chunkSize c fileName).2.calls := by
  rcases loopBody_calls ix chunkSize c fileName with hc | hc
  · rw [hc]; simp [h]
  · rw [hc]; simp [h]

theorem consumerLoop_no_sort {σ : Type} (ix : Indexer σ) (chunkSize : Nat) :
    ∀ (delivered : List (List Char)) (c : Consumer σ), Call.sortDatabase ∉ c.calls →
      Call.sortDatabase ∉ (consumerLoop ix chunkSize delivered c).2.calls := by
  intro delivered
  induction delivered with
  | nil => intro c h; simpa [consumerLoop] using h
  | cons f rest ih =>
    intro c h
    have hb := loopBody_no_sort ix chunkSize c f h
    rw [consumerLoop]
    cases hl : loopBody ix chunkSize c f with
    | mk r c1 =>
      rw [hl] at hb
      simp only at hb
      cases r with
      | none => exact ih c1 hb
      | some e =>
        cases e with
        | error =>
          simp only
          exact ih _ (by simp [hb])
        | stdException => exact hb

/-- The exit code when an exception has left the consumer loop. -/
theorem main_loop_some {σ : Type} (GRIP_DIR PATH_DELIMITER_S : List Char)
    (ix : Indexer σ) (env : Env σ) (st : Settings) (s0 : σ) (c : Consumer σ) (e : Exn)
    (hopts : parseOptions env.opts Settings.initial = Sum.inr st)
    (hopen : env.filesOpen = none) (hdb : ix.openDb env.init = (none, s0))
    (hloop : consumerLoop ix st.chunkSize
      (fileListProducer GRIP_DIR PATH_DELIMITER_S env.canonizePath (fun _ => true)
        env.files).queue ⟨s0, 0, []⟩ = (some e, c)) :
    main GRIP_DIR PATH_DELIMITER_S ix env =
      if (fileListProducer GRIP_DIR PATH_DELIMITER_S env.canonizePath
            (fun i => decide (i < env.itersBeforeCatch)) env.files).result = none ∧
          (fileListProducer GRIP_DIR PATH_DELIMITER_S env.canonizePath
            (fun i => decide (i < env.itersBeforeCatch + env.itersBeforeStop))
            env.files).result = some 2
        then 2 else 1 := by
  rw [main, mainRun_loop_some GRIP_DIR PATH_DELIMITER_S ix env st s0 c e hopts hopen hdb hloop]
  simp only
  rcases fileListProducer_result_cases GRIP_DIR PATH_DELIMITER_S env.canonizePath
    (fun i => decide (i < env.itersBeforeCatch)) env.files with h1 | h1 <;>
  rcases fileListProducer_result_cases GRIP_DIR PATH_DELIMITER_S env.canonizePath
    (fun i => decide (i < env.itersBeforeCatch + env.itersBeforeStop)) env.files with h2 | h2 <;>
  simp [h1, h2]

/-- C4: per-file errors are recovered in the consumer loop of `gripgen`. Let
`indexFile` and `write` throw nothing but an `Error`. An `Error` thrown by
`indexFile` on a delivered path is caught in the loop: the path goes to
`printFileError` and the loop goes on with the next path on the indexer as
that call left it. For every sequence of delivered paths the loop ends
normally, `indexFile` has been called once on each delivered path, in queue
order, whichever of the calls failed, and the indexer it leaves is the one
those calls produce, each made on the state the one before left. In a run of
`main` that gets past the options, `files.open` and `indexer.open`, the loop
runs over the paths the producer put on the queue; if `files.close` succeeds,
`sortDatabase` is called next, on the indexer the loop left, and the exit code
is `1` only if that call throws: else it is what the producer left (`0` or
`2`). -/
theorem file_errors_recovered {σ : Type} (GRIP_DIR PATH_DELIMITER_S : List Char)
    (ix : Indexer σ) (env : Env σ) (st : Settings) (s0 : σ)
    (hopts : parseOptions env.opts Settings.initial = Sum.inr st)
    (hopen : env.filesOpen = none) (hdb : ix.openDb env.init = (none, s0))
    (hix : ∀ s f, (ix.indexFile s f).1 ≠ some Exn.stdException)
    (hw : ∀ s, (ix.write s).1 ≠ some Exn.stdException) :
    (∀ chunkSize fileName rest (c : Consumer σ) s1,
      ix.indexFile c.indexer fileName = (some Exn.error, s1) →
      consumerLoop ix chunkSize (fileName :: rest) c
        = consumerLoop ix chunkSize rest
            ⟨s1, c.chunksNo, c.calls ++ [Call.indexFile fileName]
              ++ [Call.printFileError fileName]⟩) ∧
    (∀ chunkSize fileName rest (c : Consumer σ) s1,
      ix.indexFile c.indexer fileName = (none, s1) → ix.size s1 < chunkSize →
      consumerLoop ix chunkSize (fileName :: rest) c
        = consumerLoop ix chunkSize rest
            ⟨s1, c.chunksNo, c.calls ++ [Call.indexFile fileName]⟩) ∧
    (∀ chunkSize delivered (c : Consumer σ),
      (consumerLoop ix chunkSize delivered c).1 = none ∧
      indexedFiles (consumerLoop ix chunkSize delivered c).2.calls
        = indexedFiles c.calls ++ delivered ∧
      (consumerLoop ix chunkSize delivered c).2.indexer
        = indexedInOrder ix chunkSize delivered c.indexer) ∧
    (∃ c : Consumer σ,
      consumerLoop ix st.chunkSize
        (fileListProducer GRIP_DIR PATH_DELIMITER_S env.canonizePath (fun _ => true)
          env.files).queue ⟨s0, 0, []⟩ = (none, c) ∧
      indexedFiles c.calls
        = (fileListProducer GRIP_DIR PATH_DELIMITER_S env.canonizePath (fun _ => true)
            env.files).queue ∧
      c.indexer = indexedInOrder ix st.chunkSize
        (fileListProducer GRIP_DIR PATH_DELIMITER_S env.canonizePath (fun _ => true)
          env.files).queue s0 ∧
      (env.filesClose = none →
        (mainRun GRIP_DIR PATH_DELIMITER_S ix env).calls
          = c.calls ++ [Call.filesClose, Call.sortDatabase] ∧
        (main GRIP_DIR PATH_DELIMITER_S ix env = 1 ↔ (ix.sortDatabase c.indexer).1 ≠ none) ∧
        ((ix.sortDatabase c.indexer).1 = none →
          main GRIP_DIR PATH_DELIMITER_S ix env
            = ((fileListProducer GRIP_DIR PATH_DELIMITER_S env.canonizePath (fun _ => true)
                env.files).result.getD 0)))) := by
  refine ⟨fun chunkSize f rest c s1 h => consumerLoop_error_step ix chunkSize f rest c s1 h,
    fun chunkSize f rest c s1 h hs => consumerLoop_ok_step ix chunkSize f rest c s1 h hs,
    fun chunkSize delivered c =>
      ⟨(consumerLoop_recovers ix chunkSize hix hw delivered c).1,
        (consumerLoop_recovers ix chunkSize hix hw delivered c).2,
        consumerLoop_indexer ix chunkSize hix hw delivered c⟩, ?_⟩
  obtain ⟨hl1, hl2⟩ := consumerLoop_recovers ix st.chunkSize hix hw
    (fileListProducer GRIP_DIR PATH_DELIMITER_S env.canonizePath (fun _ => true) env.files).queue
    ⟨s0, 0, []⟩
  have hl3 := consumerLoop_indexer ix st.chunkSize hix hw
    (fileListProducer GRIP_DIR PATH_DELIMITER_S env.canonizePath (fun _ => true) env.files).queue
    ⟨s0, 0, []⟩
  have hres : (fileListProducer GRIP_DIR PATH_DELIMITER_S env.canonizePath (fun _ => true)
      env.files).result.getD 0 ≠ 1 := by
    rcases fileListProducer_result_cases GRIP_DIR PATH_DELIMITER_S env.canonizePath
      (fun _ => true) env.files with h | h <;> simp [h]
  cases hc : consumerLoop ix st.chunkSize
    (fileListProducer GRIP_DIR PATH_DELIMITER_S env.canonizePath (fun _ => true) env.files).queue
    ⟨s0, 0, []⟩ with
  | mk r c =>
    rw [hc] at hl1 hl2 hl3
    simp only at hl1 hl2 hl3
    subst hl1
    refine ⟨c, rfl, by simpa [indexedFiles] using hl2, hl3, ?_⟩
    intro hclose
    have hrun := mainRun_loop_none GRIP_DIR PATH_DELIMITER_S ix env st s0 c hopts hopen hdb hc
    rw [hclose] at hrun
    simp only at hrun
    cases hsd : ix.sortDatabase c.indexer with
    | mk r2 s2 =>
      rw [hsd] at hrun
      cases r2 with
      | none =>
        simp only at hrun
        rw [main, hrun]
        exact ⟨rfl, ⟨fun h => absurd h hres, fun h => absurd rfl h⟩, fun _ => rfl⟩
      | some e =>
        simp only at hrun
        rw [main, hrun]
        exact ⟨rfl, ⟨fun _ => by simp, fun _ => rfl⟩, fun h => by simp at h⟩

/-- C4, at a concrete input: of three delivered files the second fails with an
`Error`. All three are given to `indexFile`, the second is reported, the
indexer ends with the two bytes of `a` and `c`, `sortDatabase` runs and the exit
code is `0`. -/
theorem file_errors_recovered_witness :
    (∃ c : Consumer Nat,
      consumerLoop
        (sampleIndexer (fun f => if f = "bad".toList then some Exn.error else none) none)
        Settings.initial.chunkSize
        (fileListProducer ".grip".toList "/".toList (fun fname => some fname) (fun _ => true)
          [ReadLine.line "a".toList, ReadLine.line "bad".toList,
            ReadLine.line "c".toList]).queue ⟨0, 0, []⟩ = (none, c) ∧
      indexedFiles c.calls = ["a".toList, "bad".toList, "c".toList] ∧
      c.indexer = 2) ∧
    mainRun ".grip".toList "/".toList
        (sampleIndexer (fun f => if f = "bad".toList then some Exn.error else none) none)
        (sampleEnv [] [ReadLine.line "a".toList, ReadLine.line "bad".toList,
          ReadLine.line "c".toList] 0 0)
      = ⟨0,
          [Call.indexFile "a".toList, Call.indexFile "bad".toList,
            Call.printFileError "bad".toList, Call.indexFile "c".toList,
            Call.filesClose, Call.sortDatabase],
          ⟨["a".toList, "bad".toList, "c".toList], none, []⟩, true⟩ :=
  have h := file_errors_recovered ".grip".toList "/".toList
    (sampleIndexer (fun f => if f = "bad".toList then some Exn.error else none) none)
    (sampleEnv [] [ReadLine.line "a".toList, ReadLine.line "bad".toList,
      ReadLine.line "c".toList] 0 0) Settings.initial 0 rfl rfl rfl
    (by
      intro s f
      show (match (if f = "bad".toList then some Exn.error else none) with
        | some e => (some e, s)
        | none => (none, s + f.length)).1 ≠ some Exn.stdException
      by_cases hf : f = "bad".toList
      · rw [if_pos hf]; simp
      · rw [if_neg hf]; simp)
    (by intro s; simp [sampleIndexer])
  ⟨h.2.2.2.imp (fun _ hc => ⟨hc.1, hc.2.1.trans (by decide), hc.2.2.1.trans (by decide)⟩),
    by decide⟩

/-- A run of `main` in which the consumer loop throws nothing but `Error`s and
`files.close` and `sortDatabase` succeed. -/
theorem mainRun_recovering {σ : Type} (GRIP_DIR PATH_DELIMITER_S : List Char)
    (ix : Indexer σ) (env : Env σ) (st : Settings) (s0 : σ)
    (hopts : parseOptions env.opts Settings.initial = Sum.inr st)
    (hopen : env.filesOpen = none) (hdb : ix.openDb env.init = (none, s0))
    (hix : ∀ s f, (ix.indexFile s f).1 ≠ some Exn.stdException)
    (hw : ∀ s, (ix.write s).1 ≠ some Exn.stdException)
    (hclose : env.filesClose = none) (hsort : ∀ s, (ix.sortDatabase s).1 = none) :
    ∃ c : Consumer σ,
      indexedFiles c.calls
        = (fileListProducer GRIP_DIR PATH_DELIMITER_S env.canonizePath (fun _ => true)
            env.files).queue ∧
      mainRun GRIP_DIR PATH_DELIMITER_S ix env =
        ⟨(fileListProducer GRIP_DIR PATH_DELIMITER_S env.canonizePath (fun _ => true)
            env.files).result.getD 0,
          c.calls ++ [Call.filesClose, Call.sortDatabase],
          fileListProducer GRIP_DIR PATH_DELIMITER_S env.canonizePath (fun _ => true) env.files,
          true⟩ := by
  obtain ⟨h1, h2⟩ := consumerLoop_recovers ix st.chunkSize hix hw
    (fileListProducer GRIP_DIR PATH_DELIMITER_S env.canonizePath (fun _ => true) env.files).queue
    ⟨s0, 0, []⟩
  cases hc : consumerLoop ix st.chunkSize
    (fileListProducer GRIP_DIR PATH_DELIMITER_S env.canonizePath (fun _ => true) env.files).queue
    ⟨s0, 0, []⟩ with
  | mk r c =>
    rw [hc] at h1 h2
    simp only at h1 h2
    subst h1
    refine ⟨c, by simpa [indexedFiles] using h2, ?_⟩
    rw [mainRun_loop_none GRIP_DIR PATH_DELIMITER_S ix env st s0 c hopts hopen hdb hc]
    have := hsort c.indexer
    cases hsd : ix.sortDatabase c.indexer with
    | mk r2 s2 =>
      rw [hsd] at this
      simp only at this
      subst this
      simp only [hclose]

/-- C5: an `Error` thrown by `indexer.write()` is swallowed by the handler meant
for per-file errors. With `--chunk-size=0` every file triggers `write`, which
here always throws an `Error`: each failure is given to `printFileError` under
the name of the file just indexed, `chunksNo` stays `0`, both files are indexed,
`sortDatabase` runs and the exit code is `0`. The same `Error` thrown by
`indexer.open()` or by `sortDatabase()` reaches the outer handler and gives
the exit code `1`. -/
theorem write_error_is_recovered :
    mainRun ".grip".toList "/".toList (sampleIndexer (fun _ => none) (some Exn.error))
      (sampleEnv [Opt.chunkSize 0] [ReadLine.line "a".toList, ReadLine.line "b".toList] 0 0)
    = ⟨0,
        [Call.indexFile "a".toList, Call.write, Call.printFileError "a".toList,
          Call.indexFile "b".toList, Call.write, Call.printFileError "b".toList,
          Call.filesClose, Call.sortDatabase],
        ⟨["a".toList, "b".toList], none, []⟩, true⟩ ∧
    (consumerLoop (sampleIndexer (fun _ => none) (some Exn.error)) 0
      ["a".toList, "b".toList] ⟨0, 0, []⟩).2.chunksNo = 0 ∧
    main ".grip".toList "/".toList
      { sampleIndexer (fun _ => none) none with openDb := fun s => (some Exn.error, s) }
      (sampleEnv [Opt.chunkSize 0] [ReadLine.line "a".toList, ReadLine.line "b".toList] 0 0)
    = 1 ∧
    main ".grip".toList "/".toList
      { sampleIndexer (fun _ => none) none with sortDatabase := fun s => (some Exn.error, s) }
      (sampleEnv [Opt.chunkSize 0] [ReadLine.line "a".toList, ReadLine.line "b".toList] 0 0)
    = 1 := by
  decide

/-- What a failure of `indexer.write()` does in the consumer loop.
Let `indexFile` succeed on a file and the buffered size reach `chunkSize`, so
that `write` is called, and let `write` throw `e`. If `e` is an `Error`, the
handler inside the loop catches it: the file name goes to `printFileError` and
the loop continues with the next delivered path. If `e` is another
`std::exception`, it leaves the loop: no further path is indexed. Whenever an
exception has left the loop of a run of `main`, `sortDatabase` is not called
and the exit code is `1`, or `2` if the producer thread fails after the handler
of `main` has stored `result = 1`. And in a run in which `indexFile` and `write`
throw nothing but `Error`s and `files.close` and `sortDatabase` succeed, every
path the producer put is indexed and the exit code is not `1`. -/
theorem write_failure_handling {σ : Type} (ix : Indexer σ) (chunkSize : Nat)
    (c : Consumer σ) (fileName : List Char) (rest : List (List Char)) (s1 s2 : σ) (e : Exn)
    (hidx : ix.indexFile c.indexer fileName = (none, s1)) (hsize : ix.size s1 ≥ chunkSize)
    (hwrite : ix.write s1 = (some e, s2)) :
    (e = Exn.error →
      consumerLoop ix chunkSize (fileName :: rest) c
        = consumerLoop ix chunkSize rest
            ⟨s2, c.chunksNo,
              c.calls ++ [Call.indexFile fileName] ++ [Call.write]
                ++ [Call.printFileError fileName]⟩) ∧
    (e = Exn.stdException →
      consumerLoop ix chunkSize (fileName :: rest) c
        = (some Exn.stdException,
            ⟨s2, c.chunksNo, c.calls ++ [Call.indexFile fileName] ++ [Call.write]⟩)) ∧
    (∀ (GRIP_DIR PATH_DELIMITER_S : List Char) (env : Env σ) (st : Settings) (s0 : σ)
        (c1 : Consumer σ) (e1 : Exn),
      parseOptions env.opts Settings.initial = Sum.inr st → env.filesOpen = none →
      ix.openDb env.init = (none, s0) →
      consumerLoop ix st.chunkSize
        (fileListProducer GRIP_DIR PATH_DELIMITER_S env.canonizePath (fun _ => true)
          env.files).queue ⟨s0, 0, []⟩ = (some e1, c1) →
      (mainRun GRIP_DIR PATH_DELIMITER_S ix env).calls = c1.calls ∧
      Call.sortDatabase ∉ (mainRun GRIP_DIR PATH_DELIMITER_S ix env).calls ∧
      main GRIP_DIR PATH_DELIMITER_S ix env =
        if (fileListProducer GRIP_DIR PATH_DELIMITER_S env.canonizePath
              (fun i => decide (i < env.itersBeforeCatch)) env.files).result = none ∧
            (fileListProducer GRIP_DIR PATH_DELIMITER_S env.canonizePath
              (fun i => decide (i < env.itersBeforeCatch + env.itersBeforeStop))
              env.files).result = some 2
          then 2 else 1) ∧
    (∀ (GRIP_DIR PATH_DELIMITER_S : List Char) (env : Env σ) (st : Settings) (s0 : σ),
      parseOptions env.opts Settings.initial = Sum.inr st → env.filesOpen = none →
      ix.openDb env.init = (none, s0) →
      (∀ s f, (ix.indexFile s f).1 ≠ some Exn.stdException) →
      (∀ s, (ix.write s).1 ≠ some Exn.stdException) →
      env.filesClose = none → (∀ s, (ix.sortDatabase s).1 = none) →
      indexedFiles (mainRun GRIP_DIR PATH_DELIMITER_S ix env).calls
        = (fileListProducer GRIP_DIR PATH_DELIMITER_S env.canonizePath (fun _ => true)
            env.files).queue ∧
      main GRIP_DIR PATH_DELIMITER_S ix env ≠ 1) := by
  have hbody : loopBody ix chunkSize c fileName
      = (some e, ⟨s2, c.chunksNo, c.calls ++ [Call.indexFile fileName] ++ [Call.write]⟩) := by
    simp only [loopBody, hidx, hsize, if_true, hwrite, ge_iff_le]
  refine ⟨?_, ?_, ?_, ?_⟩
  rotate_left 3
  · intro GRIP_DIR PATH_DELIMITER_S env st s0 hopts hopen hdb hix hw hclose hsort
    obtain ⟨c2, hq, hrun⟩ := mainRun_recovering GRIP_DIR PATH_DELIMITER_S ix env st s0 hopts hopen
      hdb hix hw hclose hsort
    rw [main, hrun]
    refine ⟨?_, ?_⟩
    · simp only [indexedFiles_append, hq]
      simp [indexedFiles]
    · simp only
      rcases fileListProducer_result_cases GRIP_DIR PATH_DELIMITER_S env.canonizePath
        (fun _ => true) env.files with h | h <;> simp [h]
  · intro he
    subst he
    rw [consumerLoop, hbody]
  · intro he
    subst he
    rw [consumerLoop, hbody]
  · intro GRIP_DIR PATH_DELIMITER_S env st s0 c1 e1 hopts hopen hdb hloop
    have hcalls : (mainRun GRIP_DIR PATH_DELIMITER_S ix env).calls = c1.calls := by
      rw [mainRun_loop_some GRIP_DIR PATH_DELIMITER_S ix env st s0 c1 e1 hopts hopen hdb hloop]
    refine ⟨hcalls, ?_, main_loop_some GRIP_DIR PATH_DELIMITER_S ix env st s0 c1 e1 hopts hopen
      hdb hloop⟩
    rw [hcalls]
    have := consumerLoop_no_sort ix st.chunkSize
      (fileListProducer GRIP_DIR PATH_DELIMITER_S env.canonizePath (fun _ => true)
        env.files).queue ⟨s0, 0, []⟩ (by simp)
    rw [hloop] at this
    exact this

/-- C7 as stated fails: `indexFile` throws a `std::exception` on the only
delivered file, so an exception leaves the consumer stage; the producer, which
had gone through one iteration, begins one more, in which `readLine` throws,
and stores `result = 2` after the handler of `main` stored `result = 1`. The
exit code is `2`. -/
theorem consumer_failure_exit_two :
    (consumerLoop
      (sampleIndexer (fun f => if f = "a".toList then some Exn.stdException else none) none)
      Settings.initial.chunkSize ["a".toList] ⟨0, 0, []⟩).1 = some Exn.stdException ∧
    mainRun ".grip".toList "/".toList
      (sampleIndexer (fun f => if f = "a".toList then some Exn.stdException else none) none)
      (sampleEnv [] [ReadLine.line "a".toList, ReadLine.throws] 1 1)
    = ⟨2, [Call.indexFile "a".toList], ⟨["a".toList], some 2, []⟩, true⟩ := by
  decide

/-- C7 as the code has it: the exit code of `gripgen`. `main` returns `0` as soon
as the options hold `-V`, `-h` or an unknown option, and else goes past the
options. Then it returns `1` when `files.open` or `indexer.open` throws. Past
those, with the consumer loop run over the paths the producer puts: if the loop
ends normally, `main` returns `1` when `files.close` or `sortDatabase` throws
and else `2` if a read of the producer threw and `0` if none did; if an
exception leaves the loop, `main` returns `1`, or `2` when the producer thread
fails only after the handler of `main` has stored `result = 1`. -/
theorem main_exit_codes {σ : Type} (GRIP_DIR PATH_DELIMITER_S : List Char)
    (ix : Indexer σ) (env : Env σ) :
    ((Opt.V ∈ env.opts ∨ Opt.h ∈ env.opts ∨ Opt.other ∈ env.opts) →
      main GRIP_DIR PATH_DELIMITER_S ix env = 0) ∧
    (¬ (Opt.V ∈ env.opts ∨ Opt.h ∈ env.opts ∨ Opt.other ∈ env.opts) →
      ∃ st, parseOptions env.opts Settings.initial = Sum.inr st) ∧
    (∀ st, parseOptions env.opts Settings.initial = Sum.inr st →
      ((env.filesOpen ≠ none ∨ (ix.openDb env.init).1 ≠ none) →
        main GRIP_DIR PATH_DELIMITER_S ix env = 1) ∧
      (∀ (s0 : σ) (r : Option Exn) (c : Consumer σ),
        env.filesOpen = none → ix.openDb env.init = (none, s0) →
        consumerLoop ix st.chunkSize
          (fileListProducer GRIP_DIR PATH_DELIMITER_S env.canonizePath (fun _ => true)
            env.files).queue ⟨s0, 0, []⟩ = (r, c) →
        (r = none → (env.filesClose ≠ none ∨ (ix.sortDatabase c.indexer).1 ≠ none) →
          main GRIP_DIR PATH_DELIMITER_S ix env = 1) ∧
        (r = none → env.filesClose = none → (ix.sortDatabase c.indexer).1 = none →
          main GRIP_DIR PATH_DELIMITER_S ix env
            = if ReadLine.throws ∈ env.files then 2 else 0) ∧
        (r ≠ none →
          main GRIP_DIR PATH_DELIMITER_S ix env =
            if (fileListProducer GRIP_DIR PATH_DELIMITER_S env.canonizePath
                  (fun i => decide (i < env.itersBeforeCatch)) env.files).result = none ∧
                (fileListProducer GRIP_DIR PATH_DELIMITER_S env.canonizePath
                  (fun i => decide (i < env.itersBeforeCatch + env.itersBeforeStop))
                  env.files).result = some 2
              then 2 else 1))) := by
  refine ⟨?_, ?_, ?_⟩
  · intro h
    simp only [main, mainRun, parseOptions_exit env.opts Settings.initial h]
  · intro h
    cases hp : parseOptions env.opts Settings.initial with
    | inr st => exact ⟨st, rfl⟩
    | inl code =>
      exfalso
      apply h
      exact parseOptions_mem env.opts Settings.initial code hp
  · intro st hopts
    refine ⟨?_, ?_⟩
    · intro h
      cases hopen : env.filesOpen with
      | some e => simp only [main, mainRun, hopts, hopen]
      | none =>
        rcases h with h | h
        · exact absurd hopen h
        · cases hdb : ix.openDb env.init with
          | mk r s =>
            rw [hdb] at h
            cases r with
            | none => exact absurd rfl h
            | some e => simp only [main, mainRun, hopts, hopen, hdb]
    · intro s0 r c hopen hdb hloop
      refine ⟨?_, ?_, ?_⟩
      · intro hr hfail
        subst hr
        rw [main, mainRun_loop_none GRIP_DIR PATH_DELIMITER_S ix env st s0 c hopts hopen hdb hloop]
        cases hclose : env.filesClose with
        | some e => rfl
        | none =>
          rcases hfail with h | h
          · exact absurd hclose h
          · cases hsd : ix.sortDatabase c.indexer with
            | mk r2 s2 =>
              rw [hsd] at h
              cases r2 with
              | none => exact absurd rfl h
              | some e => rfl
      · intro hr hclose hsort
        subst hr
        rw [main, mainRun_loop_none GRIP_DIR PATH_DELIMITER_S ix env st s0 c hopts hopen hdb hloop]
        cases hsd : ix.sortDatabase c.indexer with
        | mk r2 s2 =>
          rw [hsd] at hsort
          simp only at hsort
          subst hsort
          simp only [hclose, fileListProducer_result]
          split <;> rfl
      · intro hr
        cases r with
        | none => exact absurd rfl hr
        | some e =>
          exact main_loop_some GRIP_DIR PATH_DELIMITER_S ix env st s0 c e hopts hopen hdb hloop

end Grip
